import Mathlib

/-!
Verification of the signal-implanting simulation engine of the immuneML
repository against its specification.

The engine's core present in the sources is
`source/simulation/signal_implanting_strategy/HealthySequenceImplanting.py`;
it is embedded below with Python's global random stream made explicit: a
`RandomOracle` is the random tape (the outcome of the n-th draw) and every
function threads the number of draws made so far.  Errors (Python `assert` /
exceptions) are modelled with `Except`, and an error value carries the draw
counter at the moment it was raised, so that "randomness was consumed before
the failure" is expressible.

The orchestrator (`SignalImplanter`), the `Motif`/`Signal` classes and the
sequence implanting strategy (`GappedMotifImplanting`) are not among the
sources; they are modelled from the specification and marked as such.
-/

/-- A per-sequence or per-repertoire implant record.  In the Python sources this
is `ImplantAnnotation(signal_id=..., motif_id=..., motif_instance=..., position=...)`
where every field defaults to `None`; the repertoire-level record built by
`_build_new_repertoire` sets the signal id only. -/
structure ImplantAnnot where
  signal_id : Option String := none
  motif_id : Option String := none
  motif_instance : Option String := none
  position : Option Nat := none
deriving DecidableEq

/-- The annotation object optionally attached to a receptor sequence; its
`implants` field is itself optional (Python `None`), matching the guard
`sequence.annotation is not None and sequence.annotation.implants is not None`. -/
structure SequenceAnnot where
  implants : Option (List ImplantAnnot) := none
deriving DecidableEq

/-- A receptor sequence: the amino-acid string, an identifier and the optional
annotation record. -/
structure ReceptorSequence where
  amino_acid_sequence : String
  identifier : String := ""
  annot : Option SequenceAnnot := none
deriving DecidableEq

/-- `ReceptorSequence.get_sequence` of the sources: returns the amino-acid string. -/
def ReceptorSequence.get_sequence (s : ReceptorSequence) : String :=
  s.amino_acid_sequence

/-- Sample attached to repertoire metadata (`Sample("", custom_params={})`). -/
structure Sample where
  name : String
  custom_params : List (String × String) := []
deriving DecidableEq

/-- Repertoire-level metadata: an optional sample and the growing list of
repertoire-level implant records. -/
structure RepertoireMetadata where
  sample : Option Sample := none
  implants : List ImplantAnnot := []
deriving DecidableEq

/-- `RepertoireMetadata.add_implant` of the sources: appends one implant record. -/
def RepertoireMetadata.add_implant (m : RepertoireMetadata) (i : ImplantAnnot) :
    RepertoireMetadata :=
  { m with implants := m.implants ++ [i] }

/-- A repertoire: an ordered list of receptor sequences plus optional metadata. -/
structure Repertoire where
  sequences : List ReceptorSequence
  metadata : Option RepertoireMetadata := none
deriving DecidableEq

instance : Inhabited Repertoire := ⟨⟨[], none⟩⟩

/-- Modelled from the spec: the `Motif` class is not under the sources; a motif
is a seed string (optionally with a gap of bounded length) and an identifier. -/
structure Motif where
  id : String
  seed : String
  max_gap : Nat := 0
deriving DecidableEq

/-- Modelled from the spec: `Motif.get_max_length` is the maximum possible
instantiated length: seed length plus maximum gap length. -/
def Motif.get_max_length (m : Motif) : Nat :=
  m.seed.length + m.max_gap

/-- Modelled from the spec: motif instantiation (`GappedKmerInstantiation`, not
under the sources) for a gapless seed without hamming-distance perturbation
returns the seed literally; this covers every motif used by the claims. -/
def Motif.instantiate_motif (m : Motif) : String :=
  m.seed

/-- Modelled from the spec: the sequence implanting strategy variant held by a
`HealthySequenceImplanting`; the only variant in the sources' era is
`GappedMotifImplanting`.  The Python field may also hold `None`, which the
enclosing `Option` models. -/
inductive SequenceImplantingStrategyKind
  | gappedMotifImplanting
deriving DecidableEq

/-- The configuration state of a `HealthySequenceImplanting` object: its
`__init__` stores the two arguments unchecked (the strategy may be `None`). -/
structure HealthySequenceImplanting where
  sequence_implanting_strategy : Option SequenceImplantingStrategyKind
  sequence_position_weights : Option (List (Nat × ℚ)) := none
deriving DecidableEq

/-- Modelled from the spec: a `Signal` is an identifier, an ordered list of
motifs and one signal implanting strategy. -/
structure Signal where
  id : String
  motifs : List Motif
  implanting_strategy : HealthySequenceImplanting
deriving DecidableEq

/-- The global random stream, made explicit: `shuffleAt n` is the outcome of a
`random.shuffle` performed as the n-th draw (theorems assume each outcome is a
permutation of its input), and `choiceAt n` is the raw value behind the n-th
`random.choice`-style draw (reduced modulo the number of alternatives). -/
structure RandomOracle where
  shuffleAt : Nat → List ReceptorSequence → List ReceptorSequence
  choiceAt : Nat → Nat

/-- An oracle all of whose shuffle outcomes are permutations of their inputs. -/
def RandomOracle.IsShuffler (O : RandomOracle) : Prop :=
  ∀ k xs, (O.shuffleAt k xs).Perm xs

/-- Failures of the implanting pipeline: the `assert` at line 90 of
`HealthySequenceImplanting.py` (insufficient eligible sequences), the asserts at
lines 68/99 (missing sequence implanting strategy), and Python's `ValueError`
from `max([])` / `random.choice([])` when a signal has no motifs. -/
inductive ImplantError
  | insufficientEligibleSequences
  | missingStrategy
  | valueError
deriving DecidableEq

/-- Python `int()` applied to an exact real value: truncation toward zero. -/
def pyInt (q : ℚ) : Int :=
  if 0 ≤ q then ⌊q⌋ else ⌈q⌉

/-- The eligibility guard of line 83 of `HealthySequenceImplanting.py`: the
sequence already carries at least one implant record. -/
def sequence_carries_implant (s : ReceptorSequence) : Bool :=
  match s.annot with
  | none => false
  | some a =>
    match a.implants with
    | none => false
    | some l => decide (0 < l.length)

/-- The full unusable test of lines 83-88: prior implant, or length at most
`max_motif_length`. -/
def sequence_unusable (max_motif_length : Nat) (s : ReceptorSequence) : Bool :=
  sequence_carries_implant s || decide (s.get_sequence.length ≤ max_motif_length)

/-- The implant records a sequence carries (empty when the annotation object or
its implant list is absent). -/
def sequence_implants (s : ReceptorSequence) : List ImplantAnnot :=
  match s.annot with
  | none => []
  | some a => a.implants.getD []

/-- The number of sequences to implant (line 78): `int(rate * len(sequences))`. -/
def number_to_implant (repertoire_implanting_rate : ℚ) (repertoire : Repertoire) : Nat :=
  (pyInt (repertoire_implanting_rate * repertoire.sequences.length)).toNat

/-- The unusable part of the repertoire's sequences, in original order. -/
def unusable_of (max_motif_length : Nat) (repertoire : Repertoire) : List ReceptorSequence :=
  repertoire.sequences.filter (sequence_unusable max_motif_length)

/-- The candidate (eligible) part of the repertoire's sequences, in original order. -/
def candidates_of (max_motif_length : Nat) (repertoire : Repertoire) : List ReceptorSequence :=
  repertoire.sequences.filter (not ∘ sequence_unusable max_motif_length)

/-- `_calculate_max_motif_length` (line 48): Python `max` over the motifs' max
lengths; `max([])` raises, modelled by `none`. -/
def calculate_max_motif_length (signal : Signal) : Option Nat :=
  match signal.motifs with
  | [] => none
  | m :: ms => some ((ms.map Motif.get_max_length).foldl max m.get_max_length)

/-- `_choose_sequences_for_implanting` (lines 77-96): compute the implant count
with `int(rate * len)`, partition into unusable and candidate sequences in one
ordered pass, assert the count fits (before any random draw), then shuffle the
candidates (one draw) and split off the first `n` as targets.  Rates are in
[0,1] per the spec, so `int()` of the product is its floor, clamped at 0. -/
def choose_sequences_for_implanting (O : RandomOracle) (k : Nat)
    (repertoire : Repertoire) (repertoire_implanting_rate : ℚ)
    (max_motif_length : Nat) :
    Except (ImplantError × Nat) ((List ReceptorSequence × List ReceptorSequence) × Nat) :=
  let number_of_sequences_to_implant :=
    (pyInt (repertoire_implanting_rate * repertoire.sequences.length)).toNat
  let parts := repertoire.sequences.partition (sequence_unusable max_motif_length)
  let unusable_sequences := parts.1
  let unprocessed_sequences := parts.2
  if number_of_sequences_to_implant ≤ unprocessed_sequences.length then
    let shuffled := O.shuffleAt k unprocessed_sequences
    .ok ((shuffled.take number_of_sequences_to_implant,
          unusable_sequences ++ shuffled.drop number_of_sequences_to_implant), k + 1)
  else
    .error (.insufficientEligibleSequences, k)

/-- Modelled from the spec: splicing a motif instance into a sequence at a
position replaces the spanned residues and keeps the residues outside the span;
the new sequence object records the implant (signal id, motif id, motif
instance, position) appended to its annotation. -/
def splice_implant (s : ReceptorSequence) (info : ImplantAnnot)
    (motif_instance : String) (pos : Nat) : ReceptorSequence :=
  let chars := s.amino_acid_sequence.toList
  let new_chars := chars.take pos ++ motif_instance.toList ++
    chars.drop (pos + motif_instance.length)
  { s with
    amino_acid_sequence := String.mk new_chars,
    annot := some { implants := some (sequence_implants s ++ [{ info with position := some pos }]) } }

/-- Modelled from the spec: `GappedMotifImplanting.implant` (not under the
sources): choose one valid splice position (uniformly via the random stream
when no position weights are supplied, as in every claim) and splice the motif
instance in; a position is valid when the motif stays inside sequence bounds. -/
def gapped_motif_implant (O : RandomOracle) (k : Nat) (s : ReceptorSequence)
    (info : ImplantAnnot) (motif_instance : String) : ReceptorSequence × Nat :=
  let valid_positions := s.amino_acid_sequence.length - motif_instance.length + 1
  let pos := O.choiceAt k % valid_positions
  (splice_implant s info motif_instance pos, k + 1)

/-- `implant_in_sequence` (lines 98-108): assert the strategy is present, draw
one motif with `random.choice`, instantiate it, and delegate to the sequence
implanting strategy (which draws the position). -/
def implant_in_sequence (impl : HealthySequenceImplanting) (O : RandomOracle)
    (k : Nat) (s : ReceptorSequence) (signal : Signal) :
    Except (ImplantError × Nat) (ReceptorSequence × Nat) :=
  match impl.sequence_implanting_strategy with
  | none => .error (.missingStrategy, k)
  | some _ =>
    match signal.motifs with
    | [] => .error (.valueError, k)
    | m0 :: _ =>
      let ix := O.choiceAt k % signal.motifs.length
      let motif := signal.motifs.getD ix m0
      let motif_instance := motif.instantiate_motif
      let info : ImplantAnnot :=
        { signal_id := some signal.id, motif_id := some motif.id,
          motif_instance := some motif_instance }
      .ok (gapped_motif_implant O (k + 1) s info motif_instance)

/-- The loop body of `_implant_in_sequences` (lines 70-74): implant each target
in order, threading the draw counter. -/
def implant_loop (impl : HealthySequenceImplanting) (O : RandomOracle)
    (signal : Signal) :
    Nat → List ReceptorSequence → Except (ImplantError × Nat) (List ReceptorSequence × Nat)
  | k, [] => .ok ([], k)
  | k, s :: rest =>
    match implant_in_sequence impl O k s signal with
    | .error e => .error e
    | .ok (s2, k2) =>
      match implant_loop impl O signal k2 rest with
      | .error e => .error e
      | .ok (rest2, k3) => .ok (s2 :: rest2, k3)

/-- `_implant_in_sequences` (lines 67-75): the strategy assert (line 68) runs
first, even for an empty target list, then the loop. -/
def implant_in_sequences (impl : HealthySequenceImplanting) (O : RandomOracle)
    (k : Nat) (sequences_to_be_processed : List ReceptorSequence) (signal : Signal) :
    Except (ImplantError × Nat) (List ReceptorSequence × Nat) :=
  match impl.sequence_implanting_strategy with
  | none => .error (.missingStrategy, k)
  | some _ => implant_loop impl O signal k sequences_to_be_processed

/-- `_build_new_metadata` (lines 40-46): deep-copy the metadata (a value copy
here) or create a fresh one, then fill in an empty sample if absent. -/
def build_new_metadata (metadata : Option RepertoireMetadata) : RepertoireMetadata :=
  let new_metadata := match metadata with
    | some m => m
    | none => {}
  match new_metadata.sample with
  | none => { new_metadata with sample := some { name := "", custom_params := [] } }
  | some _ => new_metadata

/-- `_build_new_repertoire` (lines 52-65): deep-copy the metadata again, append
a repertoire-level implant record carrying the signal id only, and construct a
fresh `Repertoire`. -/
def build_new_repertoire (sequences : List ReceptorSequence)
    (repertoire_metadata : Option RepertoireMetadata) (signal : Signal) : Repertoire :=
  let metadata := match repertoire_metadata with
    | some m => m
    | none => ({} : RepertoireMetadata)
  let implant : ImplantAnnot := { signal_id := some signal.id }
  { sequences := sequences, metadata := some (metadata.add_implant implant) }

/-- `implant_in_repertoire` (lines 28-38), in the source's evaluation order:
max motif length, candidate selection (with its assert, then the shuffle draw),
per-target implanting, then assembly of the new repertoire. -/
def implant_in_repertoire (impl : HealthySequenceImplanting) (O : RandomOracle)
    (k : Nat) (repertoire : Repertoire) (repertoire_implanting_rate : ℚ)
    (signal : Signal) : Except (ImplantError × Nat) (Repertoire × Nat) :=
  match calculate_max_motif_length signal with
  | none => .error (.valueError, k)
  | some max_motif_length =>
    match choose_sequences_for_implanting O k repertoire repertoire_implanting_rate
        max_motif_length with
    | .error e => .error e
    | .ok ((sequences_to_be_processed, other_sequences), k1) =>
      match implant_in_sequences impl O k1 sequences_to_be_processed signal with
      | .error e => .error e
      | .ok (processed_sequences, k2) =>
        let sequences := other_sequences ++ processed_sequences
        let metadata := build_new_metadata repertoire.metadata
        .ok (build_new_repertoire sequences (some metadata) signal, k2)

/-- Modelled from the spec: an implanting rule of the simulation plan binds a
dataset-level rate, a repertoire-level rate and an ordered list of signals. -/
structure Implanting where
  dataset_implanting_rate : ℚ
  repertoire_implanting_rate : ℚ
  signals : List Signal

/-- Modelled from the spec: the run context of the orchestrator: the dataset's
repertoires, the ordered simulation plan, and the full signal universe. -/
structure SimulationState where
  dataset : List Repertoire
  simulation : List Implanting
  signals : List Signal

/-- Modelled from the spec: the orchestrator's randomness: `selectAt i` is the
random order in which rule i draws from the still-unassigned pool, and
`repOracle j` is the random stream used to process the repertoire of index j
(the spec recommends seeding per repertoire index). -/
structure RunOracle where
  selectAt : Nat → List Nat → List Nat
  repOracle : Nat → RandomOracle

/-- A run oracle whose pool orderings are permutations and whose per-repertoire
streams shuffle by permutation. -/
def RunOracle.IsWellFormed (O : RunOracle) : Prop :=
  (∀ i pool, (O.selectAt i pool).Perm pool) ∧ ∀ j, (O.repOracle j).IsShuffler

/-- Modelled from the spec: the number of repertoires a rule receives,
`round(rule.dataset_implanting_rate * R)` (the spec leaves the tie-breaking of
`round` open; the standard rounding of `round : ℚ → ℤ` is used). -/
def rule_quota (R : Nat) (rule : Implanting) : Nat :=
  (round (rule.dataset_implanting_rate * (R : ℚ))).toNat

/-- Modelled from the spec: for each rule in declared order, `round(rate * R)`
repertoire indices are drawn without replacement from the still-unassigned pool;
the drawn lists are returned per rule. -/
def assign_repertoires (O : RunOracle) (R : Nat) :
    Nat → List Implanting → List Nat → List (List Nat)
  | _, [], _ => []
  | i, rule :: rest, pool =>
    let permuted := O.selectAt i pool
    permuted.take (rule_quota R rule) ::
      assign_repertoires O R (i + 1) rest (permuted.drop (rule_quota R rule))

/-- Modelled from the spec: an assigned repertoire is processed by sequentially
applying every signal of its rule via `implant_in_repertoire`. -/
def apply_signals (O : RandomOracle) (repertoire_implanting_rate : ℚ) :
    Nat → Repertoire → List Signal → Except (ImplantError × Nat) (Repertoire × Nat)
  | k, rep, [] => .ok (rep, k)
  | k, rep, s :: rest =>
    match implant_in_repertoire s.implanting_strategy O k rep
        repertoire_implanting_rate s with
    | .error e => .error e
    | .ok (rep2, k2) => apply_signals O repertoire_implanting_rate k2 rep2 rest

/-- The rule (if any) to which repertoire index j was assigned; rules are
scanned in declared order alongside their assigned index lists. -/
def find_rule : List (List Nat) → List Implanting → Nat → Option Implanting
  | a :: rest, r :: rs, j => if j ∈ a then some r else find_rule rest rs j
  | _, _, _ => none

/-- Modelled from the spec: for every signal of the full universe an explicit
boolean flag `signal_<id>`, true exactly when that signal was applied to the
repertoire; repertoires untouched by a signal get an explicit `false`. -/
def signal_flags (signals : List Signal) (applied : List Signal) :
    List (String × Bool) :=
  signals.map (fun s => ("signal_" ++ s.id, decide (s.id ∈ applied.map Signal.id)))

/-- Modelled from the spec: one repertoire of the output dataset: the (possibly
transformed) repertoire and its complete per-signal metadata flags. -/
def process_repertoire (O : RunOracle) (st : SimulationState)
    (assigned : List (List Nat)) (j : Nat) :
    Except (ImplantError × Nat) (Repertoire × List (String × Bool)) :=
  match find_rule assigned st.simulation j with
  | none => .ok (st.dataset.getD j default, signal_flags st.signals [])
  | some rule =>
    match apply_signals (O.repOracle j) rule.repertoire_implanting_rate 0
        (st.dataset.getD j default) rule.signals with
    | .error e => .error e
    | .ok (rep2, _) => .ok (rep2, signal_flags st.signals rule.signals)

/-- Modelled from the spec: process every repertoire (in original dataset
order); any per-repertoire failure aborts the whole run. -/
def run_loop (O : RunOracle) (st : SimulationState) (assigned : List (List Nat)) :
    List Nat → Except (ImplantError × Nat) (List (Repertoire × List (String × Bool)))
  | [] => .ok []
  | j :: js =>
    match process_repertoire O st assigned j with
    | .error e => .error e
    | .ok out =>
      match run_loop O st assigned js with
      | .error e => .error e
      | .ok outs => .ok (out :: outs)

/-- Modelled from the spec: `SignalImplanter.run` (not under the sources):
partition the repertoire indices across the rules, process every repertoire,
and assemble the output dataset in original order with complete signal flags. -/
def signal_implanter_run (O : RunOracle) (st : SimulationState) :
    Except (ImplantError × Nat) (List (Repertoire × List (String × Bool))) :=
  let R := st.dataset.length
  let assigned := assign_repertoires O R 0 st.simulation (List.range R)
  run_loop O st assigned (List.range R)

/-- A heap of repertoire-metadata objects: addresses are allocation indices.
This instruments the embedding with Python's object identity so that in-place
mutation (or its absence) is observable. -/
structure MetaHeap where
  cells : List RepertoireMetadata
deriving DecidableEq

/-- The metadata value stored at an address. -/
def MetaHeap.get (h : MetaHeap) (a : Nat) : RepertoireMetadata :=
  h.cells.getD a {}

/-- Allocate a fresh metadata object holding the given value. -/
def MetaHeap.alloc (h : MetaHeap) (v : RepertoireMetadata) : MetaHeap × Nat :=
  ({ cells := h.cells ++ [v] }, h.cells.length)

/-- Overwrite the object at an address (in-place mutation). -/
def MetaHeap.write (h : MetaHeap) (a : Nat) (v : RepertoireMetadata) : MetaHeap :=
  { cells := h.cells.set a v }

/-- A repertoire as a Python object: the sequence list is rebuilt fresh by the
code under study so it is held by value; the mutable metadata object is held by
reference into the heap (`none` models a repertoire without metadata). -/
structure RepertoireObj where
  sequences : List ReceptorSequence
  metadataAddr : Option Nat
deriving DecidableEq

/-- `_build_new_metadata` over the heap: `copy.deepcopy` allocates a fresh copy
of the referenced value (or a fresh empty object when the input has none), and
the sample fix-up mutates only that fresh copy. -/
def build_new_metadata_heap (h : MetaHeap) (addr : Option Nat) : MetaHeap × Nat :=
  match addr with
  | some a =>
    let copied := h.get a
    let p := h.alloc copied
    match copied.sample with
    | none =>
      (p.1.write p.2 { copied with sample := some { name := "", custom_params := [] } }, p.2)
    | some _ => p
  | none =>
    let p := h.alloc {}
    let v := p.1.get p.2
    (p.1.write p.2 { v with sample := some { name := "", custom_params := [] } }, p.2)

/-- `_build_new_repertoire` over the heap: deep-copy the metadata again (a fresh
allocation), mutate only that copy via `add_implant`, and construct a fresh
repertoire object referencing it. -/
def build_new_repertoire_heap (h : MetaHeap) (sequences : List ReceptorSequence)
    (metaAddr : Nat) (signal : Signal) : MetaHeap × RepertoireObj :=
  let p := h.alloc (h.get metaAddr)
  let implant : ImplantAnnot := { signal_id := some signal.id }
  let h2 := p.1.write p.2 ((p.1.get p.2).add_implant implant)
  (h2, { sequences := sequences, metadataAddr := some p.2 })

/-- `implant_in_repertoire` over the heap: identical control flow to the pure
embedding (the selection and per-sequence implanting read only the sequence
list and build fresh sequence objects), with the metadata steps instrumented. -/
def implant_in_repertoire_heap (impl : HealthySequenceImplanting) (O : RandomOracle)
    (k : Nat) (h : MetaHeap) (repertoire : RepertoireObj)
    (repertoire_implanting_rate : ℚ) (signal : Signal) :
    Except (ImplantError × Nat) (MetaHeap × RepertoireObj × Nat) :=
  match calculate_max_motif_length signal with
  | none => .error (.valueError, k)
  | some max_motif_length =>
    match choose_sequences_for_implanting O k
        { sequences := repertoire.sequences, metadata := none }
        repertoire_implanting_rate max_motif_length with
    | .error e => .error e
    | .ok ((sequences_to_be_processed, other_sequences), k1) =>
      match implant_in_sequences impl O k1 sequences_to_be_processed signal with
      | .error e => .error e
      | .ok (processed_sequences, k2) =>
        let sequences := other_sequences ++ processed_sequences
        let p := build_new_metadata_heap h repertoire.metadataAddr
        let q := build_new_repertoire_heap p.1 sequences p.2 signal
        .ok (q.1, q.2, k2)

/-- `b` is the implanted version of `a` for the given signal: the result of
splicing some motif instance of that signal into `a` at some position. -/
def implanted_version (signal_id : String) (a b : ReceptorSequence) : Prop :=
  ∃ info minst pos, ImplantAnnot.signal_id info = some signal_id ∧
    b = splice_implant a info minst pos

/-- All implant records of a sequence come from a single signal. -/
def implants_from_one_signal (s : ReceptorSequence) : Prop :=
  ∀ a ∈ sequence_implants s, ∀ b ∈ sequence_implants s,
    ImplantAnnot.signal_id a = ImplantAnnot.signal_id b

/-- A deterministic random tape used by the concrete witnesses: every shuffle
leaves its input in place (a permutation) and every choice draws 0. -/
def trivial_oracle : RandomOracle :=
  { shuffleAt := fun _ xs => xs, choiceAt := fun _ => 0 }

/-- A deterministic run oracle for the concrete witnesses. -/
def trivial_run_oracle : RunOracle :=
  { selectAt := fun _ pool => pool, repOracle := fun _ => trivial_oracle }

/-- A correctly configured healthy-sequence implanting strategy. -/
def hsi_configured : HealthySequenceImplanting :=
  { sequence_implanting_strategy := some .gappedMotifImplanting }

/-- A `HealthySequenceImplanting` constructed with a missing (None) sequence
implanting strategy; its construction succeeds in the sources. -/
def hsi_missing : HealthySequenceImplanting :=
  { sequence_implanting_strategy := none }

/-- The motif of the end-to-end scenario with seed "CAS". -/
def motif_m1 : Motif := { id := "m1", seed := "CAS" }

/-- The motif of the end-to-end scenario with seed "CCC". -/
def motif_m2 : Motif := { id := "m2", seed := "CCC" }

/-- Signal s1 of the end-to-end scenario. -/
def signal_s1 : Signal :=
  { id := "s1", motifs := [motif_m1], implanting_strategy := hsi_configured }

/-- Signal s2 of the end-to-end scenario. -/
def signal_s2 : Signal :=
  { id := "s2", motifs := [motif_m1, motif_m2], implanting_strategy := hsi_configured }

/-- Signal s1 with a missing sequence implanting strategy (for the
configuration-error analysis). -/
def signal_s1_missing : Signal :=
  { id := "s1", motifs := [motif_m1], implanting_strategy := hsi_missing }

/-- One repertoire of the end-to-end scenario: four sequences "ACDEFG". -/
def scenario_repertoire : Repertoire :=
  { sequences :=
      [ { amino_acid_sequence := "ACDEFG", identifier := "1" },
        { amino_acid_sequence := "ACDEFG", identifier := "2" },
        { amino_acid_sequence := "ACDEFG", identifier := "3" },
        { amino_acid_sequence := "ACDEFG", identifier := "4" } ],
    metadata := none }

/-- The end-to-end scenario: 10 such repertoires, two rules with dataset rate
0.2 and repertoire rate 0.5, rule 1 carrying signals [s1, s2] and rule 2
carrying [s2]. -/
def scenario_state : SimulationState :=
  { dataset := List.replicate 10 scenario_repertoire,
    simulation :=
      [ { dataset_implanting_rate := 1/5, repertoire_implanting_rate := 1/2,
          signals := [signal_s1, signal_s2] },
        { dataset_implanting_rate := 1/5, repertoire_implanting_rate := 1/2,
          signals := [signal_s2] } ],
    signals := [signal_s1, signal_s2] }

/-- Invariant maintained while the scenario's signals are applied to one
repertoire: four sequences in total, and every sequence not yet implanted still
is one of the original "ACDEFG" sequences. -/
def scenario_rep_invariant (rep : Repertoire) : Prop :=
  rep.sequences.length = 4 ∧
  ∀ b ∈ rep.sequences, sequence_carries_implant b = false →
    b.get_sequence = "ACDEFG"

/-! ## Basic lemmas about the embedded functions -/

theorem sequence_carries_implant_eq_false_iff (s : ReceptorSequence) :
    sequence_carries_implant s = false ↔ sequence_implants s = [] := by
  unfold sequence_carries_implant sequence_implants
  cases h : s.annot with
  | none => simp
  | some a =>
    cases h2 : a.implants with
    | none => simp [h2]
    | some l => cases l <;> simp [h2]

theorem splice_implant_implants (s : ReceptorSequence) (info : ImplantAnnot)
    (minst : String) (pos : Nat) :
    sequence_implants (splice_implant s info minst pos) =
      sequence_implants s ++ [{ info with position := some pos }] := by
  simp [splice_implant, sequence_implants]

theorem splice_implant_carries (s : ReceptorSequence) (info : ImplantAnnot)
    (minst : String) (pos : Nat) :
    sequence_carries_implant (splice_implant s info minst pos) = true := by
  simp [splice_implant, sequence_carries_implant]

theorem choose_sequences_eq (O : RandomOracle) (k : Nat) (rep : Repertoire)
    (rate : ℚ) (maxLen : Nat) :
    choose_sequences_for_implanting O k rep rate maxLen =
      if number_to_implant rate rep ≤ (candidates_of maxLen rep).length then
        .ok (((O.shuffleAt k (candidates_of maxLen rep)).take (number_to_implant rate rep),
              unusable_of maxLen rep ++
                (O.shuffleAt k (candidates_of maxLen rep)).drop (number_to_implant rate rep)),
             k + 1)
      else .error (.insufficientEligibleSequences, k) := by
  unfold choose_sequences_for_implanting number_to_implant candidates_of unusable_of
  simp [List.partition_eq_filter_filter]

theorem implant_in_sequence_ok_implanted {impl : HealthySequenceImplanting}
    {O : RandomOracle} {k : Nat} {s : ReceptorSequence} {signal : Signal}
    {b : ReceptorSequence} {k2 : Nat}
    (h : implant_in_sequence impl O k s signal = .ok (b, k2)) :
    implanted_version signal.id s b ∧ k2 = k + 2 := by
  unfold implant_in_sequence at h
  cases hst : impl.sequence_implanting_strategy with
  | none => rw [hst] at h; simp at h
  | some s0 =>
    rw [hst] at h
    cases hm : signal.motifs with
    | nil => rw [hm] at h; simp at h
    | cons m0 ms =>
      rw [hm] at h
      simp only [gapped_motif_implant, Except.ok.injEq, Prod.mk.injEq] at h
      obtain ⟨hb, hk⟩ := h
      constructor
      · exact ⟨_, _, _, rfl, hb.symm⟩
      · omega

theorem implant_loop_forall2 {impl : HealthySequenceImplanting} {O : RandomOracle}
    {signal : Signal} :
    ∀ (ts : List ReceptorSequence) (k : Nat) (out : List ReceptorSequence) (k2 : Nat),
      implant_loop impl O signal k ts = .ok (out, k2) →
      List.Forall₂ (implanted_version signal.id) ts out := by
  intro ts
  induction ts with
  | nil =>
    intro k out k2 h
    simp only [implant_loop, Except.ok.injEq, Prod.mk.injEq] at h
    rw [← h.1]
    exact List.Forall₂.nil
  | cons a rest ih =>
    intro k out k2 h
    unfold implant_loop at h
    cases him : implant_in_sequence impl O k a signal with
    | error e => rw [him] at h; simp at h
    | ok p =>
      obtain ⟨b, kb⟩ := p
      rw [him] at h
      dsimp only at h
      cases hloop : implant_loop impl O signal kb rest with
      | error e => rw [hloop] at h; simp at h
      | ok q =>
        obtain ⟨out2, k3⟩ := q
        rw [hloop] at h
        dsimp only at h
        simp only [Except.ok.injEq, Prod.mk.injEq] at h
        rw [← h.1]
        exact List.Forall₂.cons (implant_in_sequence_ok_implanted him).1
          (ih kb out2 k3 hloop)

theorem implant_in_sequence_total {impl : HealthySequenceImplanting}
    {O : RandomOracle} {signal : Signal} (s0 : SequenceImplantingStrategyKind)
    (hst : impl.sequence_implanting_strategy = some s0)
    (m0 : Motif) (ms : List Motif) (hmot : signal.motifs = m0 :: ms)
    (k : Nat) (s : ReceptorSequence) :
    ∃ b, implant_in_sequence impl O k s signal = .ok (b, k + 2) := by
  unfold implant_in_sequence
  rw [hst, hmot]
  exact ⟨_, rfl⟩

theorem implant_loop_total {impl : HealthySequenceImplanting} {O : RandomOracle}
    {signal : Signal} (s0 : SequenceImplantingStrategyKind)
    (hst : impl.sequence_implanting_strategy = some s0)
    (m0 : Motif) (ms : List Motif) (hmot : signal.motifs = m0 :: ms) :
    ∀ (ts : List ReceptorSequence) (k : Nat),
      ∃ out, implant_loop impl O signal k ts = .ok (out, k + 2 * ts.length) := by
  intro ts
  induction ts with
  | nil => intro k; exact ⟨[], by simp [implant_loop]⟩
  | cons a rest ih =>
    intro k
    obtain ⟨b, hb⟩ := implant_in_sequence_total s0 hst m0 ms hmot k a
    obtain ⟨out2, hout2⟩ := ih (k + 2)
    refine ⟨b :: out2, ?_⟩
    unfold implant_loop
    rw [hb]
    dsimp only
    rw [hout2]
    have harith : k + 2 + 2 * rest.length = k + 2 * (a :: rest).length := by
      simp [List.length_cons]; ring
    rw [harith]

theorem forall2_mem_right {α β : Type} {R : α → β → Prop} :
    ∀ {as : List α} {bs : List β}, List.Forall₂ R as bs →
      ∀ b ∈ bs, ∃ a, a ∈ as ∧ R a b := by
  intro as bs h
  induction h with
  | nil => intro b hb; simp at hb
  | cons hr _ ih =>
    intro b hb
    rcases List.mem_cons.mp hb with hb | hb
    · exact ⟨_, List.mem_cons_self _ _, hb ▸ hr⟩
    · obtain ⟨a, ha, har⟩ := ih b hb
      exact ⟨a, List.mem_cons_of_mem _ ha, har⟩

theorem mem_candidates {maxLen : Nat} {rep : Repertoire} {s : ReceptorSequence}
    (h : s ∈ candidates_of maxLen rep) :
    s ∈ rep.sequences ∧ sequence_carries_implant s = false ∧
      maxLen < s.get_sequence.length := by
  unfold candidates_of at h
  rw [List.mem_filter] at h
  obtain ⟨h1, h2⟩ := h
  simp only [Function.comp, Bool.not_eq_true', sequence_unusable,
    Bool.or_eq_false_iff, decide_eq_false_iff_not, not_le] at h2
  exact ⟨h1, h2.1, h2.2⟩

theorem mem_unusable {maxLen : Nat} {rep : Repertoire} {s : ReceptorSequence}
    (h : s ∈ unusable_of maxLen rep) : s ∈ rep.sequences := by
  unfold unusable_of at h
  exact (List.mem_filter.mp h).1

theorem calculate_some_motifs {signal : Signal} {maxLen : Nat}
    (hml : calculate_max_motif_length signal = some maxLen) :
    ∃ m0 ms, signal.motifs = m0 :: ms := by
  unfold calculate_max_motif_length at hml
  cases hm : signal.motifs with
  | nil => rw [hm] at hml; simp at hml
  | cons a l => exact ⟨a, l, rfl⟩

theorem implant_in_repertoire_ok_shape {impl : HealthySequenceImplanting}
    {O : RandomOracle} {k : Nat} {rep : Repertoire} {rate : ℚ} {signal : Signal}
    {rep2 : Repertoire} {k2 : Nat}
    (hok : implant_in_repertoire impl O k rep rate signal = .ok (rep2, k2)) :
    ∃ maxLen processed,
      calculate_max_motif_length signal = some maxLen ∧
      impl.sequence_implanting_strategy ≠ none ∧
      number_to_implant rate rep ≤ (candidates_of maxLen rep).length ∧
      List.Forall₂ (implanted_version signal.id)
        ((O.shuffleAt k (candidates_of maxLen rep)).take (number_to_implant rate rep))
        processed ∧
      rep2.sequences =
        (unusable_of maxLen rep ++
          (O.shuffleAt k (candidates_of maxLen rep)).drop (number_to_implant rate rep)) ++
          processed ∧
      rep2.metadata =
        some ((build_new_metadata rep.metadata).add_implant
          { signal_id := some signal.id }) ∧
      k2 = k + 1 + 2 * processed.length := by
  unfold implant_in_repertoire at hok
  cases hml : calculate_max_motif_length signal with
  | none => rw [hml] at hok; simp at hok
  | some maxLen =>
    rw [hml] at hok
    dsimp only at hok
    rw [choose_sequences_eq] at hok
    by_cases hn : number_to_implant rate rep ≤ (candidates_of maxLen rep).length
    · rw [if_pos hn] at hok
      dsimp only at hok
      cases hst : impl.sequence_implanting_strategy with
      | none =>
        unfold implant_in_sequences at hok
        rw [hst] at hok
        simp at hok
      | some s0 =>
        obtain ⟨m0, ms, hmot⟩ := calculate_some_motifs hml
        obtain ⟨processed, hloop⟩ := implant_loop_total s0 hst m0 ms hmot
          ((O.shuffleAt k (candidates_of maxLen rep)).take (number_to_implant rate rep))
          (k + 1)
        unfold implant_in_sequences at hok
        rw [hst] at hok
        dsimp only at hok
        rw [hloop] at hok
        dsimp only at hok
        simp only [Except.ok.injEq, Prod.mk.injEq] at hok
        have hfa := implant_loop_forall2 _ _ _ _ hloop
        refine ⟨maxLen, processed, rfl, by simp [hst], hn, hfa, ?_, ?_, ?_⟩
        · rw [← hok.1]
          simp [build_new_repertoire]
        · rw [← hok.1]
          simp [build_new_repertoire]
        · rw [← hok.2, hfa.length_eq]
    · rw [if_neg hn] at hok
      simp at hok

theorem implant_in_repertoire_ok_iff {impl : HealthySequenceImplanting}
    {O : RandomOracle} {k : Nat} {rep : Repertoire} {rate : ℚ} {signal : Signal}
    {maxLen : Nat} (s0 : SequenceImplantingStrategyKind)
    (hst : impl.sequence_implanting_strategy = some s0)
    (hml : calculate_max_motif_length signal = some maxLen) :
    (∃ r, implant_in_repertoire impl O k rep rate signal = .ok r) ↔
      number_to_implant rate rep ≤ (candidates_of maxLen rep).length := by
  constructor
  · rintro ⟨⟨rep2, k2⟩, hok⟩
    obtain ⟨maxLen2, processed, hml2, _, hn, _⟩ := implant_in_repertoire_ok_shape hok
    rw [hml] at hml2
    cases hml2
    exact hn
  · intro hn
    obtain ⟨m0, ms, hmot⟩ := calculate_some_motifs hml
    obtain ⟨processed, hloop⟩ := implant_loop_total (O := O) s0 hst m0 ms hmot
      ((O.shuffleAt k (candidates_of maxLen rep)).take (number_to_implant rate rep))
      (k + 1)
    have key : implant_in_repertoire impl O k rep rate signal =
        .ok (build_new_repertoire
          ((unusable_of maxLen rep ++
            (O.shuffleAt k (candidates_of maxLen rep)).drop (number_to_implant rate rep)) ++
            processed)
          (some (build_new_metadata rep.metadata)) signal,
          k + 1 + 2 * ((O.shuffleAt k (candidates_of maxLen rep)).take
            (number_to_implant rate rep)).length) := by
      unfold implant_in_repertoire
      rw [hml]
      dsimp only
      rw [choose_sequences_eq, if_pos hn]
      dsimp only
      unfold implant_in_sequences
      rw [hst]
      dsimp only
      rw [hloop]
    exact ⟨_, key⟩

theorem implant_in_sequence_error_kind {impl : HealthySequenceImplanting}
    {O : RandomOracle} {k : Nat} {s : ReceptorSequence} {signal : Signal}
    {e : ImplantError} {j : Nat}
    (h : implant_in_sequence impl O k s signal = .error (e, j)) :
    e = .missingStrategy ∨ e = .valueError := by
  unfold implant_in_sequence at h
  cases hst : impl.sequence_implanting_strategy with
  | none =>
    rw [hst] at h
    simp only [Except.error.injEq, Prod.mk.injEq] at h
    exact Or.inl h.1.symm
  | some s0 =>
    rw [hst] at h
    cases hm : signal.motifs with
    | nil =>
      rw [hm] at h
      simp only [Except.error.injEq, Prod.mk.injEq] at h
      exact Or.inr h.1.symm
    | cons m0 ms =>
      rw [hm] at h
      simp at h

theorem implant_loop_error_kind {impl : HealthySequenceImplanting}
    {O : RandomOracle} {signal : Signal} :
    ∀ (ts : List ReceptorSequence) (k : Nat) (e : ImplantError) (j : Nat),
      implant_loop impl O signal k ts = .error (e, j) →
      e = .missingStrategy ∨ e = .valueError := by
  intro ts
  induction ts with
  | nil => intro k e j h; simp [implant_loop] at h
  | cons a rest ih =>
    intro k e j h
    unfold implant_loop at h
    cases him : implant_in_sequence impl O k a signal with
    | error e2 =>
      obtain ⟨b, kb⟩ := e2
      rw [him] at h
      dsimp only at h
      simp only [Except.error.injEq, Prod.mk.injEq] at h
      have hek := implant_in_sequence_error_kind him
      exact h.1 ▸ hek
    | ok p =>
      obtain ⟨b, kb⟩ := p
      rw [him] at h
      dsimp only at h
      cases hloop : implant_loop impl O signal kb rest with
      | error e2 =>
        obtain ⟨b2, kb2⟩ := e2
        rw [hloop] at h
        dsimp only at h
        simp only [Except.error.injEq, Prod.mk.injEq] at h
        exact h.1 ▸ ih kb b2 kb2 hloop
      | ok q =>
        rw [hloop] at h
        simp at h

theorem implant_in_sequences_error_kind {impl : HealthySequenceImplanting}
    {O : RandomOracle} {k : Nat} {ts : List ReceptorSequence} {signal : Signal}
    {e : ImplantError} {j : Nat}
    (h : implant_in_sequences impl O k ts signal = .error (e, j)) :
    e = .missingStrategy ∨ e = .valueError := by
  unfold implant_in_sequences at h
  cases hst : impl.sequence_implanting_strategy with
  | none =>
    rw [hst] at h
    simp only [Except.error.injEq, Prod.mk.injEq] at h
    exact Or.inl h.1.symm
  | some s0 =>
    rw [hst] at h
    exact implant_loop_error_kind ts k e j h

theorem implant_insufficient_iff {impl : HealthySequenceImplanting}
    {O : RandomOracle} {k : Nat} {rep : Repertoire} {rate : ℚ} {signal : Signal}
    {maxLen : Nat} (hml : calculate_max_motif_length signal = some maxLen) :
    (∃ j, implant_in_repertoire impl O k rep rate signal =
        .error (.insufficientEligibleSequences, j)) ↔
      (candidates_of maxLen rep).length < number_to_implant rate rep := by
  unfold implant_in_repertoire
  rw [hml]
  dsimp only
  rw [choose_sequences_eq]
  by_cases hn : number_to_implant rate rep ≤ (candidates_of maxLen rep).length
  · rw [if_pos hn]
    dsimp only
    constructor
    · rintro ⟨j, hj⟩
      exfalso
      cases hs : implant_in_sequences impl O (k + 1)
          ((O.shuffleAt k (candidates_of maxLen rep)).take (number_to_implant rate rep))
          signal with
      | error e2 =>
        obtain ⟨b, kb⟩ := e2
        rw [hs] at hj
        dsimp only at hj
        simp only [Except.error.injEq, Prod.mk.injEq] at hj
        have hek := implant_in_sequences_error_kind hs
        rw [hj.1] at hek
        simp at hek
      | ok p =>
        obtain ⟨seqs2, kk⟩ := p
        rw [hs] at hj
        simp at hj
    · intro hlt
      omega
  · rw [if_neg hn]
    constructor
    · intro _
      omega
    · intro _
      exact ⟨k, rfl⟩

theorem number_to_implant_eq_floor (rate : ℚ) (rep : Repertoire) (h : 0 ≤ rate) :
    number_to_implant rate rep = Nat.floor (rate * (rep.sequences.length : ℚ)) := by
  unfold number_to_implant pyInt
  have hq : 0 ≤ rate * (rep.sequences.length : ℚ) := mul_nonneg h (by positivity)
  rw [if_pos hq, Int.floor_toNat]

theorem unusable_append_candidates_perm (maxLen : Nat) (rep : Repertoire) :
    (unusable_of maxLen rep ++ candidates_of maxLen rep).Perm rep.sequences := by
  simpa [unusable_of, candidates_of, Function.comp] using
    List.filter_append_perm (sequence_unusable maxLen) rep.sequences

theorem countP_carries_candidates (maxLen : Nat) (rep : Repertoire) :
    (candidates_of maxLen rep).countP sequence_carries_implant = 0 := by
  rw [List.countP_eq_zero]
  intro a ha
  simp [(mem_candidates ha).2.1]

theorem countP_carries_unusable (maxLen : Nat) (rep : Repertoire) :
    (unusable_of maxLen rep).countP sequence_carries_implant =
      rep.sequences.countP sequence_carries_implant := by
  have h := List.Perm.countP_eq sequence_carries_implant
    (unusable_append_candidates_perm maxLen rep)
  rw [List.countP_append, countP_carries_candidates] at h
  omega

theorem implant_count_increase {impl : HealthySequenceImplanting} {O : RandomOracle}
    {k : Nat} {rep : Repertoire} {rate : ℚ} {signal : Signal} {rep2 : Repertoire}
    {k2 : Nat} (hsh : O.IsShuffler)
    (hok : implant_in_repertoire impl O k rep rate signal = .ok (rep2, k2)) :
    rep2.sequences.countP sequence_carries_implant =
      rep.sequences.countP sequence_carries_implant + number_to_implant rate rep ∧
    rep2.sequences.length = rep.sequences.length := by
  obtain ⟨maxLen, processed, hml, _, hn, hfa, hseq, hmeta, hk⟩ :=
    implant_in_repertoire_ok_shape hok
  have hperm : (O.shuffleAt k (candidates_of maxLen rep)).Perm (candidates_of maxLen rep) :=
    hsh k _
  have hlen_sh : (O.shuffleAt k (candidates_of maxLen rep)).length =
      (candidates_of maxLen rep).length := hperm.length_eq
  have htake_len : ((O.shuffleAt k (candidates_of maxLen rep)).take
      (number_to_implant rate rep)).length = number_to_implant rate rep := by
    rw [List.length_take]
    omega
  have hproc_len : processed.length = number_to_implant rate rep := by
    rw [← hfa.length_eq, htake_len]
  have hsh_zero : (O.shuffleAt k (candidates_of maxLen rep)).countP
      sequence_carries_implant = 0 := by
    rw [List.Perm.countP_eq _ hperm]
    exact countP_carries_candidates _ _
  have hdrop_zero : ((O.shuffleAt k (candidates_of maxLen rep)).drop
      (number_to_implant rate rep)).countP sequence_carries_implant = 0 := by
    rw [List.countP_eq_zero]
    intro a ha
    exact List.countP_eq_zero.mp hsh_zero a (List.mem_of_mem_drop ha)
  have hproc_all : processed.countP sequence_carries_implant = processed.length := by
    rw [List.countP_eq_length]
    intro b hb
    obtain ⟨a, _, hv⟩ := forall2_mem_right hfa b hb
    obtain ⟨info, minst, pos, _, hbe⟩ := hv
    rw [hbe]
    simp [splice_implant_carries]
  have hlen_uc : (unusable_of maxLen rep).length + (candidates_of maxLen rep).length =
      rep.sequences.length := by
    have := (unusable_append_candidates_perm maxLen rep).length_eq
    simpa using this
  constructor
  · rw [hseq]
    simp only [List.countP_append]
    rw [countP_carries_unusable, hdrop_zero, hproc_all, hproc_len]
    omega
  · rw [hseq]
    simp only [List.length_append]
    rw [List.length_drop, hproc_len, hlen_sh]
    omega

theorem implant_output_mem {impl : HealthySequenceImplanting} {O : RandomOracle}
    {k : Nat} {rep : Repertoire} {rate : ℚ} {signal : Signal} {rep2 : Repertoire}
    {k2 : Nat} (hsh : O.IsShuffler)
    (hok : implant_in_repertoire impl O k rep rate signal = .ok (rep2, k2)) :
    ∀ b ∈ rep2.sequences,
      b ∈ rep.sequences ∨
      ∃ a, a ∈ rep.sequences ∧ sequence_carries_implant a = false ∧
        implanted_version signal.id a b := by
  obtain ⟨maxLen, processed, hml, _, hn, hfa, hseq, _, _⟩ :=
    implant_in_repertoire_ok_shape hok
  intro b hb
  rw [hseq] at hb
  rcases List.mem_append.mp hb with hb | hb
  · rcases List.mem_append.mp hb with hb | hb
    · exact Or.inl (mem_unusable hb)
    · have h1 : b ∈ O.shuffleAt k (candidates_of maxLen rep) := List.mem_of_mem_drop hb
      have h2 := (hsh k _).mem_iff.mp h1
      exact Or.inl (mem_candidates h2).1
  · obtain ⟨a, ha, hv⟩ := forall2_mem_right hfa b hb
    have ha2 : a ∈ O.shuffleAt k (candidates_of maxLen rep) := List.mem_of_mem_take ha
    have ha3 := (hsh k _).mem_iff.mp ha2
    have hc := mem_candidates ha3
    exact Or.inr ⟨a, hc.1, hc.2.1, hv⟩

theorem implant_preserves_one_signal {impl : HealthySequenceImplanting}
    {O : RandomOracle} {k : Nat} {rep : Repertoire} {rate : ℚ} {signal : Signal}
    {rep2 : Repertoire} {k2 : Nat} (hsh : O.IsShuffler)
    (hok : implant_in_repertoire impl O k rep rate signal = .ok (rep2, k2))
    (hin : ∀ s ∈ rep.sequences, implants_from_one_signal s) :
    ∀ b ∈ rep2.sequences, implants_from_one_signal b := by
  intro b hb
  rcases implant_output_mem hsh hok b hb with h | ⟨a, ha, hcar, info, minst, pos, hsid, hbe⟩
  · exact hin b h
  · rw [hbe]
    intro x hx y hy
    rw [splice_implant_implants] at hx hy
    rw [(sequence_carries_implant_eq_false_iff a).mp hcar] at hx hy
    simp at hx hy
    rw [hx, hy]

theorem implant_sequence_conservation {impl : HealthySequenceImplanting}
    {O : RandomOracle} {k : Nat} {rep : Repertoire} {rate : ℚ} {signal : Signal}
    {rep2 : Repertoire} {k2 : Nat} (hsh : O.IsShuffler)
    (hok : implant_in_repertoire impl O k rep rate signal = .ok (rep2, k2)) :
    ∃ orig, orig.Perm rep.sequences ∧
      List.Forall₂ (fun a b => b = a ∨ implanted_version signal.id a b)
        orig rep2.sequences := by
  obtain ⟨maxLen, processed, hml, _, hn, hfa, hseq, _, _⟩ :=
    implant_in_repertoire_ok_shape hok
  refine ⟨(unusable_of maxLen rep ++
      (O.shuffleAt k (candidates_of maxLen rep)).drop (number_to_implant rate rep)) ++
      (O.shuffleAt k (candidates_of maxLen rep)).take (number_to_implant rate rep),
      ?_, ?_⟩
  · have h1 : ((unusable_of maxLen rep ++
        (O.shuffleAt k (candidates_of maxLen rep)).drop (number_to_implant rate rep)) ++
        (O.shuffleAt k (candidates_of maxLen rep)).take (number_to_implant rate rep)).Perm
        (unusable_of maxLen rep ++
          ((O.shuffleAt k (candidates_of maxLen rep)).take (number_to_implant rate rep) ++
           (O.shuffleAt k (candidates_of maxLen rep)).drop (number_to_implant rate rep))) := by
      rw [List.append_assoc]
      exact List.Perm.append_left _ List.perm_append_comm
    rw [List.take_append_drop] at h1
    exact h1.trans ((List.Perm.append_left _ (hsh k _)).trans
      (unusable_append_candidates_perm maxLen rep))
  · rw [hseq]
    refine List.rel_append ?_ ?_
    · exact List.forall₂_same.mpr (fun a _ => Or.inl rfl)
    · exact hfa.imp (fun a b h => Or.inr h)

theorem build_new_metadata_implants (m : Option RepertoireMetadata) :
    (build_new_metadata m).implants = (m.getD {}).implants := by
  unfold build_new_metadata
  cases m with
  | none => simp
  | some mm => cases h : mm.sample <;> simp [h]

theorem candidates_length_of_no_shorts {maxLen : Nat} {rep : Repertoire}
    (h : ∀ b ∈ rep.sequences, sequence_carries_implant b = false →
      maxLen < b.get_sequence.length) :
    (candidates_of maxLen rep).length + rep.sequences.countP sequence_carries_implant =
      rep.sequences.length := by
  unfold candidates_of
  rw [← List.countP_eq_length_filter]
  have hcg : rep.sequences.countP (not ∘ sequence_unusable maxLen) =
      rep.sequences.countP (fun a => ¬ sequence_carries_implant a) := by
    apply List.countP_congr
    intro b hb
    by_cases hc : sequence_carries_implant b = true
    · simp [Function.comp, sequence_unusable, hc]
    · have hb2 := h b hb (by simpa using hc)
      simp [Function.comp, sequence_unusable, hc, Nat.not_le.mpr hb2]
  rw [hcg]
  have hl := List.length_eq_countP_add_countP (p := sequence_carries_implant) rep.sequences
  omega

theorem apply_signals_preserves {O : RandomOracle} {rate : ℚ} (hsh : O.IsShuffler) :
    ∀ (sigs : List Signal) (k : Nat) (rep rep2 : Repertoire) (k2 : Nat),
      apply_signals O rate k rep sigs = .ok (rep2, k2) →
      rep2.sequences.length = rep.sequences.length ∧
      ((∀ s ∈ rep.sequences, implants_from_one_signal s) →
        ∀ b ∈ rep2.sequences, implants_from_one_signal b) := by
  intro sigs
  induction sigs with
  | nil =>
    intro k rep rep2 k2 h
    simp only [apply_signals, Except.ok.injEq, Prod.mk.injEq] at h
    rw [← h.1]
    exact ⟨rfl, fun hin => hin⟩
  | cons s rest ih =>
    intro k rep rep2 k2 h
    unfold apply_signals at h
    cases him : implant_in_repertoire s.implanting_strategy O k rep rate s with
    | error e => rw [him] at h; simp at h
    | ok p =>
      obtain ⟨repMid, kMid⟩ := p
      rw [him] at h
      dsimp only at h
      have hmid := ih kMid repMid rep2 k2 h
      have hstep := implant_count_increase hsh him
      refine ⟨by rw [hmid.1, hstep.2], ?_⟩
      intro hin
      exact hmid.2 (implant_preserves_one_signal hsh him hin)

theorem run_loop_ok_forall2 {O : RunOracle} {st : SimulationState}
    {assigned : List (List Nat)} :
    ∀ (js : List Nat) (outs : List (Repertoire × List (String × Bool))),
      run_loop O st assigned js = .ok outs →
      List.Forall₂ (fun j o => process_repertoire O st assigned j = .ok o) js outs := by
  intro js
  induction js with
  | nil =>
    intro outs h
    simp only [run_loop, Except.ok.injEq] at h
    rw [← h]
    exact List.Forall₂.nil
  | cons j rest ih =>
    intro outs h
    unfold run_loop at h
    cases hp : process_repertoire O st assigned j with
    | error e => rw [hp] at h; simp at h
    | ok o =>
      rw [hp] at h
      dsimp only at h
      cases hr : run_loop O st assigned rest with
      | error e => rw [hr] at h; simp at h
      | ok outs2 =>
        rw [hr] at h
        simp only [Except.ok.injEq] at h
        rw [← h]
        exact List.Forall₂.cons hp (ih outs2 hr)

theorem run_loop_total {O : RunOracle} {st : SimulationState}
    {assigned : List (List Nat)} :
    ∀ (js : List Nat),
      (∀ j ∈ js, ∃ o, process_repertoire O st assigned j = .ok o) →
      ∃ outs, run_loop O st assigned js = .ok outs := by
  intro js
  induction js with
  | nil => intro _; exact ⟨[], rfl⟩
  | cons j rest ih =>
    intro h
    obtain ⟨o, ho⟩ := h j (List.mem_cons_self _ _)
    obtain ⟨outs2, houts2⟩ := ih (fun x hx => h x (List.mem_cons_of_mem _ hx))
    refine ⟨o :: outs2, ?_⟩
    unfold run_loop
    rw [ho]
    dsimp only
    rw [houts2]

theorem assign_repertoires_mem {O : RunOracle}
    (hsel : ∀ i pool, (O.selectAt i pool).Perm pool) (R : Nat) :
    ∀ (rules : List Implanting) (i : Nat) (pool : List Nat) (l : List Nat),
      l ∈ assign_repertoires O R i rules pool → ∀ x ∈ l, x ∈ pool := by
  intro rules
  induction rules with
  | nil => intro i pool l hl; simp [assign_repertoires] at hl
  | cons rule rest ih =>
    intro i pool l hl x hx
    unfold assign_repertoires at hl
    rcases List.mem_cons.mp hl with hl | hl
    · rw [hl] at hx
      exact ((hsel i pool).mem_iff).mp (List.mem_of_mem_take hx)
    · have := ih (i + 1) ((O.selectAt i pool).drop (rule_quota R rule)) l hl x hx
      exact ((hsel i pool).mem_iff).mp (List.mem_of_mem_drop this)

theorem assign_repertoires_lengths {O : RunOracle}
    (hsel : ∀ i pool, (O.selectAt i pool).Perm pool) (R : Nat) :
    ∀ (rules : List Implanting) (i : Nat) (pool : List Nat),
      (rules.map (rule_quota R)).sum ≤ pool.length →
      List.Forall₂ (fun rule l => l.length = rule_quota R rule) rules
        (assign_repertoires O R i rules pool) := by
  intro rules
  induction rules with
  | nil => intro i pool _; exact List.Forall₂.nil
  | cons rule rest ih =>
    intro i pool h
    simp only [List.map_cons, List.sum_cons] at h
    have hplen : (O.selectAt i pool).length = pool.length := (hsel i pool).length_eq
    unfold assign_repertoires
    refine List.Forall₂.cons ?_ ?_
    · rw [List.length_take]
      omega
    · apply ih
      rw [List.length_drop, hplen]
      omega

theorem assign_repertoires_pairwise {O : RunOracle}
    (hsel : ∀ i pool, (O.selectAt i pool).Perm pool) (R : Nat) :
    ∀ (rules : List Implanting) (i : Nat) (pool : List Nat), pool.Nodup →
      List.Pairwise (fun l1 l2 => ∀ x ∈ l1, x ∉ l2)
        (assign_repertoires O R i rules pool) := by
  intro rules
  induction rules with
  | nil => intro i pool _; exact List.Pairwise.nil
  | cons rule rest ih =>
    intro i pool hnd
    have hpnd : (O.selectAt i pool).Nodup := ((hsel i pool).nodup_iff).mpr hnd
    have hsplit := List.nodup_append.mp
      (by rw [List.take_append_drop (rule_quota R rule) (O.selectAt i pool)]; exact hpnd)
    unfold assign_repertoires
    refine List.Pairwise.cons ?_ ?_
    · intro l hl x hx hxl
      have hxd := assign_repertoires_mem hsel R rest (i + 1) _ l hl x hxl
      exact hsplit.2.2 hx hxd
    · exact ih (i + 1) _ ((List.drop_sublist _ _).nodup hpnd)

theorem set_append_last {α : Type} (l : List α) (x v : α) :
    (l ++ [x]).set l.length v = l ++ [v] := by
  rw [List.set_append_right _ _ (Nat.le_refl _)]
  simp

theorem metaheap_get_alloc_lt {h : MetaHeap} {v : RepertoireMetadata} {a : Nat}
    (ha : a < h.cells.length) : (h.alloc v).1.get a = h.get a := by
  unfold MetaHeap.alloc MetaHeap.get
  simp only [List.getD_eq_getElem?_getD]
  rw [List.getElem?_append_left ha]

theorem metaheap_get_alloc_self (h : MetaHeap) (v : RepertoireMetadata) :
    (h.alloc v).1.get (h.alloc v).2 = v := by
  unfold MetaHeap.alloc MetaHeap.get
  simp only [List.getD_eq_getElem?_getD]
  rw [List.getElem?_concat_length]
  rfl

theorem metaheap_get_append_last (h : MetaHeap) (v : RepertoireMetadata) :
    (MetaHeap.mk (h.cells ++ [v])).get h.cells.length = v := by
  unfold MetaHeap.get
  simp only [List.getD_eq_getElem?_getD]
  rw [List.getElem?_concat_length]
  rfl

theorem metaheap_get_append_lt (h : MetaHeap) (v : RepertoireMetadata) {a : Nat}
    (ha : a < h.cells.length) :
    (MetaHeap.mk (h.cells ++ [v])).get a = h.get a := by
  unfold MetaHeap.get
  simp only [List.getD_eq_getElem?_getD]
  rw [List.getElem?_append_left ha]

theorem build_new_metadata_heap_eq (h : MetaHeap) (addr : Option Nat) :
    build_new_metadata_heap h addr =
      ({ cells := h.cells ++ [build_new_metadata (addr.map h.get)] }, h.cells.length) := by
  cases addr with
  | none =>
    simp only [build_new_metadata_heap, MetaHeap.alloc, MetaHeap.write]
    rw [set_append_last]
    simp [build_new_metadata, metaheap_get_append_last]
  | some a =>
    cases hsample : (h.get a).sample with
    | none =>
      simp only [build_new_metadata_heap, MetaHeap.alloc, MetaHeap.write, hsample]
      rw [set_append_last]
      simp [build_new_metadata, hsample]
    | some sm =>
      simp only [build_new_metadata_heap, MetaHeap.alloc, hsample]
      simp [build_new_metadata, hsample]

theorem build_new_repertoire_heap_eq (h : MetaHeap) (seqs : List ReceptorSequence)
    (metaAddr : Nat) (signal : Signal) :
    build_new_repertoire_heap h seqs metaAddr signal =
      ({ cells := h.cells ++
          [(h.get metaAddr).add_implant { signal_id := some signal.id }] },
       { sequences := seqs, metadataAddr := some h.cells.length }) := by
  simp only [build_new_repertoire_heap, MetaHeap.alloc, MetaHeap.write]
  rw [set_append_last]
  simp [metaheap_get_append_last]

theorem signal_flags_lookup_mem {signals : List Signal} (applied : List Signal)
    {s : Signal} (hs : s ∈ signals) :
    ∃ b, (signal_flags signals applied).lookup ("signal_" ++ s.id) = some b := by
  induction signals with
  | nil => simp at hs
  | cons s0 rest ih =>
    unfold signal_flags
    simp only [List.map_cons, List.lookup]
    by_cases hk : ("signal_" ++ s0.id) = ("signal_" ++ s.id)
    · have hkb : (("signal_" ++ s.id) == ("signal_" ++ s0.id)) = true :=
        beq_iff_eq.mpr hk.symm
      rw [hkb]
      exact ⟨_, rfl⟩
    · have hs2 : s ∈ rest := by
        rcases List.mem_cons.mp hs with h | h
        · exact absurd (by rw [h]) hk
        · exact h
      have hkb : (("signal_" ++ s.id) == ("signal_" ++ s0.id)) = false :=
        beq_eq_false_iff_ne.mpr (fun hcontra => hk hcontra.symm)
      rw [hkb]
      obtain ⟨b, hb⟩ := ih hs2
      refine ⟨b, ?_⟩
      unfold signal_flags at hb
      exact hb

theorem signal_flags_lookup_false {signals : List Signal} {s : Signal}
    (hs : s ∈ signals) :
    (signal_flags signals []).lookup ("signal_" ++ s.id) = some false := by
  induction signals with
  | nil => simp at hs
  | cons s0 rest ih =>
    unfold signal_flags
    simp only [List.map_cons, List.lookup, List.map_nil]
    by_cases hk : ("signal_" ++ s0.id) = ("signal_" ++ s.id)
    · have hkb : (("signal_" ++ s.id) == ("signal_" ++ s0.id)) = true :=
        beq_iff_eq.mpr hk.symm
      rw [hkb]
      simp
    · have hs2 : s ∈ rest := by
        rcases List.mem_cons.mp hs with h | h
        · exact absurd (by rw [h]) hk
        · exact h
      have hkb : (("signal_" ++ s.id) == ("signal_" ++ s0.id)) = false :=
        beq_eq_false_iff_ne.mpr (fun hcontra => hk hcontra.symm)
      rw [hkb]
      have hb := ih hs2
      unfold signal_flags at hb
      simpa using hb

theorem process_repertoire_unassigned {O : RunOracle} {st : SimulationState}
    {assigned : List (List Nat)} {j : Nat}
    (h : find_rule assigned st.simulation j = none) :
    process_repertoire O st assigned j =
      .ok (st.dataset.getD j default, signal_flags st.signals []) := by
  unfold process_repertoire
  rw [h]

theorem process_repertoire_flags {O : RunOracle} {st : SimulationState}
    {assigned : List (List Nat)} {j : Nat}
    {o : Repertoire × List (String × Bool)}
    (h : process_repertoire O st assigned j = .ok o) :
    ∃ applied, o.2 = signal_flags st.signals applied := by
  unfold process_repertoire at h
  cases hf : find_rule assigned st.simulation j with
  | none =>
    rw [hf] at h
    simp only [Except.ok.injEq] at h
    exact ⟨[], by rw [← h]⟩
  | some rule =>
    rw [hf] at h
    dsimp only at h
    cases ha : apply_signals (O.repOracle j) rule.repertoire_implanting_rate 0
        (st.dataset.getD j default) rule.signals with
    | error e => rw [ha] at h; simp at h
    | ok p =>
      rw [ha] at h
      simp only [Except.ok.injEq] at h
      exact ⟨rule.signals, by rw [← h]⟩

theorem forall2_countP {α β : Type} {R : α → β → Prop} {q : α → Bool} {p : β → Bool} :
    ∀ {as : List α} {bs : List β}, List.Forall₂ R as bs →
      (∀ a b, R a b → p b = q a) → bs.countP p = as.countP q := by
  intro as bs h hpq
  induction h with
  | nil => rfl
  | cons hr _ ih =>
    rw [List.countP_cons, List.countP_cons, ih, hpq _ _ hr]

theorem countP_mem_range {l : List Nat} {R : Nat} (hnd : l.Nodup)
    (hsub : ∀ x ∈ l, x ∈ List.range R) :
    (List.range R).countP (fun j => decide (j ∈ l)) = l.length := by
  rw [List.countP_eq_length_filter]
  have hperm : ((List.range R).filter (fun j => decide (j ∈ l))).Perm l := by
    apply (List.perm_ext_iff_of_nodup ((List.nodup_range R).filter _) hnd).mpr
    intro a
    simp only [List.mem_filter, decide_eq_true_eq]
    constructor
    · rintro ⟨_, h⟩
      exact h
    · intro h
      exact ⟨hsub a h, h⟩
  exact hperm.length_eq

theorem scenario_number_half : number_to_implant (1/2) scenario_repertoire = 2 := by
  unfold number_to_implant pyInt scenario_repertoire
  norm_num
  rfl

theorem scenario_number_three_halves :
    number_to_implant (3/2) scenario_repertoire = 6 := by
  unfold number_to_implant pyInt scenario_repertoire
  norm_num
  rfl

theorem scenario_number_zero : number_to_implant 0 scenario_repertoire = 0 := by
  unfold number_to_implant pyInt
  norm_num

/-! ## Claim theorems -/

/-- C1: Exclusivity of implants.  (a) The candidate selection of
`_choose_sequences_for_implanting` never selects as an implant target a
sequence that already carries an implant record or whose length is at most
`max_motif_length` (such sequences are classified unusable); (b) consequently,
in every simulation run whose input sequences each carry implants of at most
one signal (in particular, implant-free inputs), every sequence of every output
repertoire carries implant records of at most one signal. -/
theorem exclusivity_of_implants :
    (∀ (O : RandomOracle) (k : Nat) (rep : Repertoire) (rate : ℚ) (maxLen : Nat)
      (targets others : List ReceptorSequence) (k2 : Nat), O.IsShuffler →
      choose_sequences_for_implanting O k rep rate maxLen = .ok ((targets, others), k2) →
      ∀ s ∈ targets, sequence_carries_implant s = false ∧
        maxLen < s.get_sequence.length) ∧
    (∀ (O : RunOracle) (st : SimulationState)
      (outs : List (Repertoire × List (String × Bool))), O.IsWellFormed →
      (∀ rep ∈ st.dataset, ∀ s ∈ rep.sequences, implants_from_one_signal s) →
      signal_implanter_run O st = .ok outs →
      ∀ entry ∈ outs, ∀ b ∈ entry.1.sequences, implants_from_one_signal b) := by
  constructor
  · intro O k rep rate maxLen targets others k2 hsh hch
    rw [choose_sequences_eq] at hch
    by_cases hn : number_to_implant rate rep ≤ (candidates_of maxLen rep).length
    · rw [if_pos hn] at hch
      simp only [Except.ok.injEq, Prod.mk.injEq] at hch
      intro s hs
      rw [← hch.1.1] at hs
      have h1 : s ∈ O.shuffleAt k (candidates_of maxLen rep) := List.mem_of_mem_take hs
      have h2 := (hsh k _).mem_iff.mp h1
      have h3 := mem_candidates h2
      exact ⟨h3.2.1, h3.2.2⟩
    · rw [if_neg hn] at hch
      simp at hch
  · intro O st outs hwf hin hrun
    have hrun2 : run_loop O st (assign_repertoires O st.dataset.length 0 st.simulation
        (List.range st.dataset.length)) (List.range st.dataset.length) = .ok outs := hrun
    have hfa := run_loop_ok_forall2 (List.range st.dataset.length) outs hrun2
    intro entry hentry
    obtain ⟨j, hj, hproc⟩ := forall2_mem_right hfa entry hentry
    have hjlt : j < st.dataset.length := List.mem_range.mp hj
    have hmem : st.dataset.getD j default ∈ st.dataset := by
      rw [List.getD_eq_getElem?_getD, List.getElem?_eq_getElem hjlt]
      exact List.getElem_mem hjlt
    unfold process_repertoire at hproc
    cases hf : find_rule (assign_repertoires O st.dataset.length 0 st.simulation
        (List.range st.dataset.length)) st.simulation j with
    | none =>
      rw [hf] at hproc
      simp only [Except.ok.injEq] at hproc
      rw [← hproc]
      exact hin _ hmem
    | some rule =>
      rw [hf] at hproc
      dsimp only at hproc
      cases ha : apply_signals (O.repOracle j) rule.repertoire_implanting_rate 0
          (st.dataset.getD j default) rule.signals with
      | error e => rw [ha] at hproc; simp at hproc
      | ok p =>
        rw [ha] at hproc
        simp only [Except.ok.injEq] at hproc
        rw [← hproc]
        exact (apply_signals_preserves (hwf.2 j) rule.signals 0 _ p.1 p.2
          (by rw [ha])).2 (hin _ hmem)

/-- Witness for C1: both parts applied at concrete inputs: a concrete candidate
selection on the scenario repertoire, and a concrete (empty) simulation run. -/
theorem exclusivity_of_implants_witness :
    (∀ s ∈ ([⟨"ACDEFG", "1", none⟩, ⟨"ACDEFG", "2", none⟩] : List ReceptorSequence),
      sequence_carries_implant s = false ∧ 3 < s.get_sequence.length) ∧
    (∀ entry ∈ ([] : List (Repertoire × List (String × Bool))),
      ∀ b ∈ entry.1.sequences, implants_from_one_signal b) := by
  constructor
  · exact exclusivity_of_implants.1 trivial_oracle 0 scenario_repertoire (1/2) 3
      [⟨"ACDEFG", "1", none⟩, ⟨"ACDEFG", "2", none⟩]
      [⟨"ACDEFG", "3", none⟩, ⟨"ACDEFG", "4", none⟩] 1
      (fun k xs => List.Perm.refl xs)
      (by rw [choose_sequences_eq, scenario_number_half]; rfl)
  · exact exclusivity_of_implants.2 trivial_run_oracle
      { dataset := [], simulation := [], signals := [] } []
      ⟨fun i pool => List.Perm.refl pool, fun j k xs => List.Perm.refl xs⟩
      (by intro rep h; simp at h) rfl

/-- C2: Rate conformance.  Whenever `implant_in_repertoire` returns (under a
shuffling oracle, with a non-negative rate), the number of sequences carrying
implants grows by exactly `floor(rate * N)` where `N` is the total sequence
count of the input repertoire; for implant-free inputs this is exactly the
number of newly-implanted sequences. -/
theorem rate_conformance {impl : HealthySequenceImplanting} {O : RandomOracle}
    {k : Nat} {rep : Repertoire} {rate : ℚ} {signal : Signal} {rep2 : Repertoire}
    {k2 : Nat} (hsh : O.IsShuffler) (hrate : 0 ≤ rate)
    (hok : implant_in_repertoire impl O k rep rate signal = .ok (rep2, k2)) :
    rep2.sequences.countP sequence_carries_implant =
      rep.sequences.countP sequence_carries_implant +
        Nat.floor (rate * (rep.sequences.length : ℚ)) := by
  rw [← number_to_implant_eq_floor rate rep hrate]
  exact (implant_count_increase hsh hok).1

/-- Witness for C2: a concrete implanting call on the scenario repertoire with
rate 1/2 implants exactly floor(1/2 * 4) = 2 sequences. -/
theorem rate_conformance_witness :
    0 ≤ (1/2 : ℚ) ∧
    ∃ rep2 k2,
      implant_in_repertoire hsi_configured trivial_oracle 0 scenario_repertoire
        (1/2) signal_s1 = .ok (rep2, k2) ∧
      rep2.sequences.countP sequence_carries_implant =
        scenario_repertoire.sequences.countP sequence_carries_implant +
          Nat.floor ((1/2 : ℚ) * (scenario_repertoire.sequences.length : ℚ)) := by
  obtain ⟨⟨rep2, k2⟩, hok⟩ :
      ∃ r, implant_in_repertoire hsi_configured trivial_oracle 0 scenario_repertoire
        (1/2) signal_s1 = .ok r :=
    (implant_in_repertoire_ok_iff .gappedMotifImplanting rfl
      (show calculate_max_motif_length signal_s1 = some 3 from rfl)).mpr
      (by rw [scenario_number_half]; decide)
  exact ⟨by norm_num, rep2, k2, hok,
    rate_conformance (fun k xs => List.Perm.refl xs) (by norm_num) hok⟩

/-- C3: Fail-fast on insufficient eligible sequences.  For a signal whose motif
list is non-empty (so that `max_motif_length` is defined),
`implant_in_repertoire` raises `InsufficientEligibleSequences` exactly when the
requested count `int(rate * N)` exceeds the number of candidate sequences; in
particular it never silently truncates the request to the candidate count. -/
theorem insufficient_eligible_fail_fast {impl : HealthySequenceImplanting}
    {O : RandomOracle} {k : Nat} {rep : Repertoire} {rate : ℚ} {signal : Signal}
    {maxLen : Nat} (hml : calculate_max_motif_length signal = some maxLen) :
    (∃ j, implant_in_repertoire impl O k rep rate signal =
        .error (.insufficientEligibleSequences, j)) ↔
      (candidates_of maxLen rep).length < number_to_implant rate rep :=
  implant_insufficient_iff hml

/-- Witness for C3: with rate 3/2 on a 4-sequence repertoire the request is 6 >
4 candidates and the error is raised. -/
theorem insufficient_eligible_fail_fast_witness :
    ∃ j, implant_in_repertoire hsi_configured trivial_oracle 0 scenario_repertoire
      (3/2) signal_s1 = .error (.insufficientEligibleSequences, j) :=
  (insufficient_eligible_fail_fast
    (show calculate_max_motif_length signal_s1 = some 3 from rfl)).mpr
    (by rw [scenario_number_three_halves]; decide)

theorem number_half_of_four {rep : Repertoire} (h : rep.sequences.length = 4) :
    number_to_implant (1/2) rep = 2 := by
  unfold number_to_implant pyInt
  rw [h]
  norm_num
  rfl

theorem number_zero_rate {rep : Repertoire} : number_to_implant 0 rep = 0 := by
  unfold number_to_implant pyInt
  norm_num

theorem scenario_rule_quota (sigs : List Signal) :
    rule_quota 10 ⟨1/5, 1/2, sigs⟩ = 2 := by
  unfold rule_quota
  norm_num
  rfl

theorem missing_strategy_after_shuffle {impl : HealthySequenceImplanting}
    {O : RandomOracle} {k : Nat} {rep : Repertoire} {rate : ℚ} {signal : Signal}
    {maxLen : Nat} (hst : impl.sequence_implanting_strategy = none)
    (hml : calculate_max_motif_length signal = some maxLen)
    (hn : number_to_implant rate rep ≤ (candidates_of maxLen rep).length) :
    implant_in_repertoire impl O k rep rate signal =
      .error (.missingStrategy, k + 1) := by
  unfold implant_in_repertoire
  rw [hml]
  dsimp only
  rw [choose_sequences_eq, if_pos hn]
  dsimp only
  unfold implant_in_sequences
  rw [hst]

/-- C4: Assignment partition.  The per-rule assigned index lists are pairwise
disjoint (each repertoire assigned to at most one rule), each rule receives
exactly `round(rate * R)` repertoires when the quotas fit in the pool, and any
repertoire left unassigned passes through the run unmodified with all-false
signal flags. -/
theorem assignment_partition {O : RunOracle} {st : SimulationState}
    (hsel : ∀ i pool, (O.selectAt i pool).Perm pool)
    (hsum : (st.simulation.map (rule_quota st.dataset.length)).sum ≤
      st.dataset.length) :
    List.Pairwise (fun l1 l2 => ∀ x ∈ l1, x ∉ l2)
      (assign_repertoires O st.dataset.length 0 st.simulation
        (List.range st.dataset.length)) ∧
    List.Forall₂ (fun rule l => l.length = rule_quota st.dataset.length rule)
      st.simulation
      (assign_repertoires O st.dataset.length 0 st.simulation
        (List.range st.dataset.length)) ∧
    (∀ outs, signal_implanter_run O st = .ok outs →
      ∀ j (h2 : j < outs.length),
        find_rule (assign_repertoires O st.dataset.length 0 st.simulation
          (List.range st.dataset.length)) st.simulation j = none →
        outs.get ⟨j, h2⟩ = (st.dataset.getD j default, signal_flags st.signals [])) := by
  refine ⟨?_, ?_, ?_⟩
  · exact assign_repertoires_pairwise hsel st.dataset.length st.simulation 0 _
      (List.nodup_range _)
  · exact assign_repertoires_lengths hsel st.dataset.length st.simulation 0 _
      (by simpa using hsum)
  · intro outs hrun j h2 hnone
    have hrun2 : run_loop O st (assign_repertoires O st.dataset.length 0 st.simulation
        (List.range st.dataset.length)) (List.range st.dataset.length) = .ok outs := hrun
    have hfa := run_loop_ok_forall2 (List.range st.dataset.length) outs hrun2
    have h1 : j < (List.range st.dataset.length).length := by
      rw [hfa.length_eq]
      exact h2
    have hg := hfa.get h1 h2
    rw [List.get_range] at hg
    rw [process_repertoire_unassigned hnone] at hg
    exact (Except.ok.inj hg).symm

/-- Witness for C4: the scenario plan (two rules of dataset rate 0.2 over 10
repertoires) under a deterministic run oracle. -/
theorem assignment_partition_witness :
    List.Pairwise (fun l1 l2 => ∀ x ∈ l1, x ∉ l2)
      (assign_repertoires trivial_run_oracle scenario_state.dataset.length 0
        scenario_state.simulation (List.range scenario_state.dataset.length)) ∧
    List.Forall₂ (fun rule l => l.length = rule_quota scenario_state.dataset.length rule)
      scenario_state.simulation
      (assign_repertoires trivial_run_oracle scenario_state.dataset.length 0
        scenario_state.simulation (List.range scenario_state.dataset.length)) ∧
    (∀ outs, signal_implanter_run trivial_run_oracle scenario_state = .ok outs →
      ∀ j (h2 : j < outs.length),
        find_rule (assign_repertoires trivial_run_oracle scenario_state.dataset.length 0
          scenario_state.simulation (List.range scenario_state.dataset.length))
          scenario_state.simulation j = none →
        outs.get ⟨j, h2⟩ =
          (scenario_state.dataset.getD j default,
            signal_flags scenario_state.signals [])) := by
  apply assignment_partition (fun i pool => List.Perm.refl pool)
  show ((List.map (rule_quota 10)
    [⟨1/5, 1/2, [signal_s1, signal_s2]⟩, ⟨1/5, 1/2, [signal_s2]⟩]).sum ≤ 10)
  simp only [List.map_cons, List.map_nil, List.sum_cons, List.sum_nil]
  rw [scenario_rule_quota, scenario_rule_quota]
  omega

/-- C5: Metadata completeness.  Every output repertoire of a successful run
carries, for every signal of the run's signal universe, an explicit boolean
`signal_<id>` flag; repertoires assigned to no rule carry the explicit value
`false` for every signal, never an absent key. -/
theorem metadata_completeness {O : RunOracle} {st : SimulationState}
    {outs : List (Repertoire × List (String × Bool))}
    (hrun : signal_implanter_run O st = .ok outs) :
    (∀ entry ∈ outs, ∀ s ∈ st.signals,
      ∃ b, entry.2.lookup ("signal_" ++ s.id) = some b) ∧
    (∀ j (h2 : j < outs.length),
      find_rule (assign_repertoires O st.dataset.length 0 st.simulation
        (List.range st.dataset.length)) st.simulation j = none →
      ∀ s ∈ st.signals,
        (outs.get ⟨j, h2⟩).2.lookup ("signal_" ++ s.id) = some false) := by
  have hrun2 : run_loop O st (assign_repertoires O st.dataset.length 0 st.simulation
      (List.range st.dataset.length)) (List.range st.dataset.length) = .ok outs := hrun
  have hfa := run_loop_ok_forall2 (List.range st.dataset.length) outs hrun2
  constructor
  · intro entry hentry s hs
    obtain ⟨j, hj, hproc⟩ := forall2_mem_right hfa entry hentry
    obtain ⟨applied, happ⟩ := process_repertoire_flags hproc
    rw [happ]
    exact signal_flags_lookup_mem applied hs
  · intro j h2 hnone s hs
    have h1 : j < (List.range st.dataset.length).length := by
      rw [hfa.length_eq]
      exact h2
    have hg := hfa.get h1 h2
    rw [List.get_range] at hg
    rw [process_repertoire_unassigned hnone] at hg
    have hout : outs.get ⟨j, h2⟩ =
        (st.dataset.getD j default, signal_flags st.signals []) :=
      (Except.ok.inj hg).symm
    rw [hout]
    exact signal_flags_lookup_false hs

/-- Witness for C5: a one-repertoire run with no rules; the single output entry
carries the explicit flag `signal_s1 = false`. -/
theorem metadata_completeness_witness :
    ∃ b, (([("signal_s1", false)] : List (String × Bool)).lookup
      ("signal_" ++ signal_s1.id)) = some b := by
  have hrun : signal_implanter_run trivial_run_oracle
      { dataset := [scenario_repertoire], simulation := [], signals := [signal_s1] } =
      .ok [(scenario_repertoire, [("signal_s1", false)])] := rfl
  exact (metadata_completeness hrun).1 (scenario_repertoire, [("signal_s1", false)])
    (by simp) signal_s1 (by simp)

/-- C6: Sequence conservation.  Under a shuffling oracle, a successful
`implant_in_repertoire` call preserves the sequence count; some permutation of
the input sequences maps pointwise onto the output, each sequence either
unchanged or replaced by its implanted version; and the repertoire metadata
gains exactly one implant record carrying the signal id only. -/
theorem sequence_conservation {impl : HealthySequenceImplanting} {O : RandomOracle}
    {k : Nat} {rep : Repertoire} {rate : ℚ} {signal : Signal} {rep2 : Repertoire}
    {k2 : Nat} (hsh : O.IsShuffler)
    (hok : implant_in_repertoire impl O k rep rate signal = .ok (rep2, k2)) :
    rep2.sequences.length = rep.sequences.length ∧
    (∃ orig, orig.Perm rep.sequences ∧
      List.Forall₂ (fun a b => b = a ∨ implanted_version signal.id a b) orig
        rep2.sequences) ∧
    (∃ md, rep2.metadata = some md ∧
      md.implants = (rep.metadata.getD {}).implants ++
        [{ signal_id := some signal.id }]) := by
  refine ⟨(implant_count_increase hsh hok).2,
    implant_sequence_conservation hsh hok, ?_⟩
  obtain ⟨maxLen, processed, _, _, _, _, _, hmeta, _⟩ :=
    implant_in_repertoire_ok_shape hok
  refine ⟨_, hmeta, ?_⟩
  simp [RepertoireMetadata.add_implant, build_new_metadata_implants]

/-- Witness for C6: the concrete implanting call of the scenario keeps all four
sequences. -/
theorem sequence_conservation_witness :
    ∃ rep2 k2, implant_in_repertoire hsi_configured trivial_oracle 0
        scenario_repertoire (1/2) signal_s1 = .ok (rep2, k2) ∧
      rep2.sequences.length = scenario_repertoire.sequences.length := by
  obtain ⟨⟨rep2, k2⟩, hok⟩ :
      ∃ r, implant_in_repertoire hsi_configured trivial_oracle 0 scenario_repertoire
        (1/2) signal_s1 = .ok r :=
    (implant_in_repertoire_ok_iff .gappedMotifImplanting rfl
      (show calculate_max_motif_length signal_s1 = some 3 from rfl)).mpr
      (by rw [scenario_number_half]; decide)
  exact ⟨rep2, k2, hok,
    (sequence_conservation (fun k xs => List.Perm.refl xs) hok).1⟩

/-- C7: Non-mutation of inputs.  In the heap-instrumented embedding of
`implant_in_repertoire`, every metadata object existing before the call —
including the input repertoire's — holds an unchanged value afterwards; the
returned repertoire is a fresh object whose metadata lives at a freshly
allocated address and whose value is a deep copy of the input metadata plus the
new signal-id implant record. -/
theorem non_mutation_of_inputs {impl : HealthySequenceImplanting} {O : RandomOracle}
    {k : Nat} {h : MetaHeap} {rep : RepertoireObj} {rate : ℚ} {signal : Signal}
    {h2 : MetaHeap} {rep2 : RepertoireObj} {k2 : Nat}
    (hok : implant_in_repertoire_heap impl O k h rep rate signal =
      .ok (h2, rep2, k2)) :
    (∀ a, a < h.cells.length → h2.get a = h.get a) ∧
    (∃ b, rep2.metadataAddr = some b ∧ h.cells.length ≤ b ∧
      h2.get b = (build_new_metadata (rep.metadataAddr.map h.get)).add_implant
        { signal_id := some signal.id }) := by
  unfold implant_in_repertoire_heap at hok
  cases hml : calculate_max_motif_length signal with
  | none => rw [hml] at hok; simp at hok
  | some maxLen =>
    rw [hml] at hok
    dsimp only at hok
    cases hcs : choose_sequences_for_implanting O k
        { sequences := rep.sequences, metadata := none } rate maxLen with
    | error e => rw [hcs] at hok; simp at hok
    | ok pr =>
      obtain ⟨⟨targets, others⟩, k1⟩ := pr
      rw [hcs] at hok
      dsimp only at hok
      cases his : implant_in_sequences impl O k1 targets signal with
      | error e => rw [his] at hok; simp at hok
      | ok pq =>
        obtain ⟨processed, kk2⟩ := pq
        rw [his] at hok
        dsimp only at hok
        rw [build_new_metadata_heap_eq] at hok
        dsimp only at hok
        rw [build_new_repertoire_heap_eq] at hok
        dsimp only at hok
        simp only [Except.ok.injEq, Prod.mk.injEq] at hok
        obtain ⟨hh2, hrep2, hk2⟩ := hok
        constructor
        · intro a ha
          rw [← hh2]
          have ha2 : a < (h.cells ++
              [build_new_metadata (rep.metadataAddr.map h.get)]).length := by
            simp only [List.length_append, List.length_cons, List.length_nil]
            omega
          rw [metaheap_get_append_lt (MetaHeap.mk (h.cells ++
            [build_new_metadata (rep.metadataAddr.map h.get)])) _ ha2]
          exact metaheap_get_append_lt h _ ha
        · refine ⟨(h.cells ++ [build_new_metadata (rep.metadataAddr.map h.get)]).length,
            ?_, ?_, ?_⟩
          · rw [← hrep2]
          · simp only [List.length_append, List.length_cons, List.length_nil]
            omega
          · rw [← hh2]
            rw [metaheap_get_append_last (MetaHeap.mk (h.cells ++
              [build_new_metadata (rep.metadataAddr.map h.get)]))]
            rw [metaheap_get_append_last]

/-- Witness for C7: a concrete heap-instrumented implanting call; the sole
pre-existing metadata object keeps its value and the result references a fresh
address. -/
theorem non_mutation_of_inputs_witness :
    ∃ h2 rep2 k2,
      implant_in_repertoire_heap hsi_configured trivial_oracle 0
        (MetaHeap.mk [{}])
        (RepertoireObj.mk scenario_repertoire.sequences (some 0)) (1/2) signal_s1 =
        .ok (h2, rep2, k2) ∧
      h2.get 0 = (MetaHeap.mk [{}]).get 0 ∧
      ∃ b, rep2.metadataAddr = some b ∧ 1 ≤ b := by
  have hr : implant_in_repertoire_heap hsi_configured trivial_oracle 0
      (MetaHeap.mk [{}]) (RepertoireObj.mk scenario_repertoire.sequences (some 0))
      (1/2) signal_s1 =
      .ok (MetaHeap.mk [{}, { sample := some ⟨"", []⟩, implants := [] },
            { sample := some ⟨"", []⟩, implants := [⟨some "s1", none, none, none⟩] }],
        RepertoireObj.mk
          [⟨"ACDEFG", "3", none⟩, ⟨"ACDEFG", "4", none⟩,
           ⟨"CASEFG", "1", some ⟨some [⟨some "s1", some "m1", some "CAS", some 0⟩]⟩⟩,
           ⟨"CASEFG", "2", some ⟨some [⟨some "s1", some "m1", some "CAS", some 0⟩]⟩⟩]
          (some 2), 5) := by
    unfold implant_in_repertoire_heap
    rw [show calculate_max_motif_length signal_s1 = some 3 from rfl]
    dsimp only
    rw [choose_sequences_eq, @number_half_of_four ⟨scenario_repertoire.sequences, none⟩ rfl]
    rfl
  have hmain := non_mutation_of_inputs hr
  refine ⟨_, _, _, hr, hmain.1 0 (by decide), ?_⟩
  obtain ⟨b, hb1, hb2, _⟩ := hmain.2
  exact ⟨b, hb1, by simpa using hb2⟩

/-- C8 counterexample: a `HealthySequenceImplanting` with a missing sequence
implanting strategy is constructed without error (`hsi_missing` exists), and an
implanting call on it fails only inside `_implant_in_sequences`, with the draw
counter already advanced from 0 to 1 by the candidate shuffle of
`_choose_sequences_for_implanting`: the error is raised at use time and after a
random draw, not at construction/validation time before any randomness. -/
theorem configuration_error_counterexample :
    implant_in_repertoire hsi_missing trivial_oracle 0 scenario_repertoire (1/2)
      signal_s1_missing = .error (.missingStrategy, 0 + 1) :=
  missing_strategy_after_shuffle rfl
    (show calculate_max_motif_length signal_s1_missing = some 3 from rfl)
    (by rw [scenario_number_half]; decide)

/-- C8 (amended): a missing sequence implanting strategy is detected at implant
time, not construction time: whenever the candidate selection succeeds, the
call fails with the missing-strategy assertion after exactly one random draw
(the candidate shuffle); and a missing strategy is never silently defaulted —
no call with such a configuration ever returns a repertoire. -/
theorem configuration_error_at_use_time {impl : HealthySequenceImplanting}
    {O : RandomOracle} {k : Nat} {rep : Repertoire} {rate : ℚ} {signal : Signal}
    {maxLen : Nat} (hst : impl.sequence_implanting_strategy = none)
    (hml : calculate_max_motif_length signal = some maxLen)
    (hn : number_to_implant rate rep ≤ (candidates_of maxLen rep).length) :
    implant_in_repertoire impl O k rep rate signal =
      .error (.missingStrategy, k + 1) ∧
    (∀ (O2 : RandomOracle) (j : Nat) (rep2 : Repertoire) (rate2 : ℚ) r,
      implant_in_repertoire impl O2 j rep2 rate2 signal ≠ .ok r) := by
  refine ⟨missing_strategy_after_shuffle hst hml hn, ?_⟩
  intro O2 j rep2 rate2 r hok
  obtain ⟨rr, kk⟩ := r
  obtain ⟨_, _, _, hne, _⟩ := implant_in_repertoire_ok_shape hok
  exact hne hst

/-- Witness for C8: the amended behaviour at a concrete configuration. -/
theorem configuration_error_at_use_time_witness :
    implant_in_repertoire hsi_missing trivial_oracle 3 scenario_repertoire (1/2)
      signal_s1_missing = .error (.missingStrategy, 3 + 1) ∧
    (∀ (O2 : RandomOracle) (j : Nat) (rep2 : Repertoire) (rate2 : ℚ) r,
      implant_in_repertoire hsi_missing O2 j rep2 rate2 signal_s1_missing ≠ .ok r) :=
  configuration_error_at_use_time rfl
    (show calculate_max_motif_length signal_s1_missing = some 3 from rfl)
    (by rw [scenario_number_half]; decide)

/-- C10: Zero-implant edge case.  When `int(rate * N) = 0` (for example rate 0)
and the strategy and motifs are configured, `implant_in_repertoire` still
succeeds after the single shuffle draw, returns a repertoire whose sequences
are a permutation of the originals (none modified), and nevertheless appends a
signal-id implant record to the repertoire metadata — the repertoire is marked
as carrying the signal although zero sequences were implanted. -/
theorem zero_implant_edge {impl : HealthySequenceImplanting} {O : RandomOracle}
    {k : Nat} {rep : Repertoire} {rate : ℚ} {signal : Signal} {maxLen : Nat}
    (s0 : SequenceImplantingStrategyKind)
    (hst : impl.sequence_implanting_strategy = some s0)
    (hsh : O.IsShuffler)
    (hml : calculate_max_motif_length signal = some maxLen)
    (hzero : number_to_implant rate rep = 0) :
    ∃ rep2, implant_in_repertoire impl O k rep rate signal = .ok (rep2, k + 1) ∧
      rep2.sequences.Perm rep.sequences ∧
      ∃ md, rep2.metadata = some md ∧
        md.implants = (rep.metadata.getD {}).implants ++
          [{ signal_id := some signal.id }] := by
  obtain ⟨⟨rep2, k2⟩, hok⟩ := (implant_in_repertoire_ok_iff s0 hst hml).mpr
    (by rw [hzero]; exact Nat.zero_le _)
  obtain ⟨maxLen2, processed, hml2, _, hn, hfa, hseq, hmeta, hk⟩ :=
    implant_in_repertoire_ok_shape hok
  rw [hml] at hml2
  have hml3 := Option.some.inj hml2
  subst hml3
  have hplen : processed.length = 0 := by
    have hq := hfa.length_eq
    rw [hzero] at hq
    simpa using hq.symm
  have hpnil : processed = [] := List.eq_nil_of_length_eq_zero hplen
  have hk1 : k2 = k + 1 := by rw [hk, hplen]
  refine ⟨rep2, by rw [← hk1]; exact hok, ?_, ?_⟩
  · rw [hseq, hpnil, List.append_nil, hzero, List.drop_zero]
    exact (List.Perm.append_left _ (hsh k _)).trans
      (unusable_append_candidates_perm maxLen rep)
  · refine ⟨_, hmeta, ?_⟩
    simp [RepertoireMetadata.add_implant, build_new_metadata_implants]

/-- Witness for C10: rate 0 on the scenario repertoire. -/
theorem zero_implant_edge_witness :
    ∃ rep2, implant_in_repertoire hsi_configured trivial_oracle 0
        scenario_repertoire 0 signal_s1 = .ok (rep2, 0 + 1) ∧
      rep2.sequences.Perm scenario_repertoire.sequences ∧
      ∃ md, rep2.metadata = some md ∧
        md.implants = (scenario_repertoire.metadata.getD {}).implants ++
          [{ signal_id := some signal_s1.id }] :=
  zero_implant_edge .gappedMotifImplanting rfl (fun k xs => List.Perm.refl xs)
    (show calculate_max_motif_length signal_s1 = some 3 from rfl) number_zero_rate

theorem scenario_inv_base : scenario_rep_invariant scenario_repertoire := by
  constructor
  · rfl
  · intro b hb _
    simp only [scenario_repertoire, List.mem_cons, List.not_mem_nil, or_false] at hb
    rcases hb with rfl | rfl | rfl | rfl <;> rfl

theorem scenario_count_base :
    scenario_repertoire.sequences.countP sequence_carries_implant = 0 := by
  decide

theorem scenario_step {O : RandomOracle} {k : Nat} {rep : Repertoire}
    {signal : Signal} (hsh : O.IsShuffler)
    (hsig : signal = signal_s1 ∨ signal = signal_s2)
    (hinv : scenario_rep_invariant rep)
    (hcnt : rep.sequences.countP sequence_carries_implant ≤ 2) :
    ∃ rep2 k2,
      implant_in_repertoire signal.implanting_strategy O k rep (1/2) signal =
        .ok (rep2, k2) ∧
      scenario_rep_invariant rep2 ∧
      rep2.sequences.countP sequence_carries_implant =
        rep.sequences.countP sequence_carries_implant + 2 := by
  have hst : signal.implanting_strategy.sequence_implanting_strategy =
      some .gappedMotifImplanting := by
    rcases hsig with h | h <;> rw [h] <;> rfl
  have hml : calculate_max_motif_length signal = some 3 := by
    rcases hsig with h | h <;> rw [h] <;> rfl
  have hn2 : number_to_implant (1/2) rep = 2 := number_half_of_four hinv.1
  have hpt : ∀ b ∈ rep.sequences, sequence_carries_implant b = false →
      3 < b.get_sequence.length := by
    intro b hb hcb
    rw [hinv.2 b hb hcb]
    decide
  have hclen := candidates_length_of_no_shorts hpt
  rw [hinv.1] at hclen
  obtain ⟨⟨rep2, k2⟩, hok⟩ := (implant_in_repertoire_ok_iff _ hst hml).mpr
    (by rw [hn2]; omega)
  have hci := implant_count_increase hsh hok
  refine ⟨rep2, k2, hok, ⟨?_, ?_⟩, ?_⟩
  · rw [hci.2, hinv.1]
  · intro b hb hcb
    rcases implant_output_mem hsh hok b hb with hmem | ⟨a, ha, hcar, hv⟩
    · exact hinv.2 b hmem hcb
    · obtain ⟨info, minst, pos, _, hbe⟩ := hv
      rw [hbe, splice_implant_carries] at hcb
      cases hcb
  · rw [hci.1, hn2]

theorem scenario_apply {O : RandomOracle} (hsh : O.IsShuffler) :
    ∀ (sigs : List Signal), (∀ s ∈ sigs, s = signal_s1 ∨ s = signal_s2) →
    ∀ (k : Nat) (rep : Repertoire), scenario_rep_invariant rep →
      rep.sequences.countP sequence_carries_implant + 2 * sigs.length ≤ 4 →
      ∃ rep2 k2, apply_signals O (1/2) k rep sigs = .ok (rep2, k2) ∧
        rep2.sequences.length = 4 := by
  intro sigs
  induction sigs with
  | nil =>
    intro _ k rep hinv _
    exact ⟨rep, k, by simp [apply_signals], hinv.1⟩
  | cons s rest ih =>
    intro hsigs k rep hinv hbound
    have hcnt : rep.sequences.countP sequence_carries_implant ≤ 2 := by
      simp only [List.length_cons] at hbound
      omega
    obtain ⟨rep1, k1, hok1, hinv1, hc1⟩ := scenario_step hsh
      (hsigs s (List.mem_cons_self _ _)) hinv hcnt
    obtain ⟨rep2, k2, hok2, hlen2⟩ := ih
      (fun x hx => hsigs x (List.mem_cons_of_mem _ hx)) k1 rep1 hinv1
      (by rw [hc1]; simp only [List.length_cons] at hbound; omega)
    refine ⟨rep2, k2, ?_, hlen2⟩
    unfold apply_signals
    rw [hok1]
    dsimp only
    exact hok2

/-- C9: End-to-end scenario.  For 10 repertoires of four "ACDEFG" sequences and
the two-rule plan (rates 0.2/0.5 with signals [s1, s2], and 0.2/0.5 with [s2]),
every well-formed run succeeds and its output has exactly 2 repertoires flagged
signal_s1 = true, exactly 4 flagged signal_s2 = true, all remaining repertoires
flagged false for both signals, and every repertoire retains exactly 4
sequences. -/
theorem end_to_end_scenario {O : RunOracle} (hwf : O.IsWellFormed) :
    ∃ outs, signal_implanter_run O scenario_state = .ok outs ∧
      outs.length = 10 ∧
      outs.countP (fun e => e.2.lookup "signal_s1" == some true) = 2 ∧
      outs.countP (fun e => e.2.lookup "signal_s2" == some true) = 4 ∧
      outs.countP (fun e => e.2.lookup "signal_s1" == some false) = 8 ∧
      outs.countP (fun e => e.2.lookup "signal_s2" == some false) = 6 ∧
      ∀ entry ∈ outs, entry.1.sequences.length = 4 := by
  obtain ⟨hsel, hrep⟩ := hwf
  have hassign : assign_repertoires O 10 0 scenario_state.simulation (List.range 10) =
      [(O.selectAt 0 (List.range 10)).take 2,
       (O.selectAt 1 ((O.selectAt 0 (List.range 10)).drop 2)).take 2] := by
    show assign_repertoires O 10 0
      [⟨1/5, 1/2, [signal_s1, signal_s2]⟩, ⟨1/5, 1/2, [signal_s2]⟩]
      (List.range 10) = _
    unfold assign_repertoires
    unfold assign_repertoires
    unfold assign_repertoires
    rw [scenario_rule_quota, scenario_rule_quota]
  have hP0 : (O.selectAt 0 (List.range 10)).Perm (List.range 10) := hsel 0 _
  have hP0len : (O.selectAt 0 (List.range 10)).length = 10 := by
    simpa using hP0.length_eq
  have hP0nd : (O.selectAt 0 (List.range 10)).Nodup :=
    hP0.nodup_iff.mpr (List.nodup_range 10)
  have hL1len : ((O.selectAt 0 (List.range 10)).take 2).length = 2 := by
    rw [List.length_take, hP0len]
    decide
  have hP1 : (O.selectAt 1 ((O.selectAt 0 (List.range 10)).drop 2)).Perm
      ((O.selectAt 0 (List.range 10)).drop 2) := hsel 1 _
  have hP1len : (O.selectAt 1 ((O.selectAt 0 (List.range 10)).drop 2)).length = 8 := by
    rw [hP1.length_eq, List.length_drop, hP0len]
  have hL2len : ((O.selectAt 1 ((O.selectAt 0 (List.range 10)).drop 2)).take 2).length = 2 := by
    rw [List.length_take, hP1len]
    decide
  have hL1sub : ∀ x ∈ (O.selectAt 0 (List.range 10)).take 2, x ∈ List.range 10 :=
    fun x hx => hP0.mem_iff.mp (List.mem_of_mem_take hx)
  have hL2subd : ∀ x ∈ (O.selectAt 1 ((O.selectAt 0 (List.range 10)).drop 2)).take 2,
      x ∈ (O.selectAt 0 (List.range 10)).drop 2 :=
    fun x hx => hP1.mem_iff.mp (List.mem_of_mem_take hx)
  have hL2sub : ∀ x ∈ (O.selectAt 1 ((O.selectAt 0 (List.range 10)).drop 2)).take 2,
      x ∈ List.range 10 :=
    fun x hx => hP0.mem_iff.mp (List.mem_of_mem_drop (hL2subd x hx))
  have hL1nd : ((O.selectAt 0 (List.range 10)).take 2).Nodup :=
    (List.take_sublist _ _).nodup hP0nd
  have hP1nd : (O.selectAt 1 ((O.selectAt 0 (List.range 10)).drop 2)).Nodup :=
    hP1.nodup_iff.mpr ((List.drop_sublist _ _).nodup hP0nd)
  have hL2nd : ((O.selectAt 1 ((O.selectAt 0 (List.range 10)).drop 2)).take 2).Nodup :=
    (List.take_sublist _ _).nodup hP1nd
  have hdisj : ∀ x ∈ (O.selectAt 0 (List.range 10)).take 2,
      x ∉ (O.selectAt 1 ((O.selectAt 0 (List.range 10)).drop 2)).take 2 := by
    intro x hx hxl2
    have hsplit := List.nodup_append.mp
      (by rw [List.take_append_drop 2 (O.selectAt 0 (List.range 10))]; exact hP0nd)
    exact hsplit.2.2 hx (hL2subd x hxl2)
  have hfr : ∀ j, find_rule
      [(O.selectAt 0 (List.range 10)).take 2,
       (O.selectAt 1 ((O.selectAt 0 (List.range 10)).drop 2)).take 2]
      scenario_state.simulation j =
      (if j ∈ (O.selectAt 0 (List.range 10)).take 2 then
        some ⟨1/5, 1/2, [signal_s1, signal_s2]⟩
      else if j ∈ (O.selectAt 1 ((O.selectAt 0 (List.range 10)).drop 2)).take 2 then
        some ⟨1/5, 1/2, [signal_s2]⟩
      else none) := by
    intro j
    show find_rule _ [⟨1/5, 1/2, [signal_s1, signal_s2]⟩, ⟨1/5, 1/2, [signal_s2]⟩] j = _
    by_cases h1 : j ∈ (O.selectAt 0 (List.range 10)).take 2
    · unfold find_rule
      rw [if_pos h1, if_pos h1]
    · unfold find_rule
      rw [if_neg h1, if_neg h1]
      by_cases h2 : j ∈ (O.selectAt 1 ((O.selectAt 0 (List.range 10)).drop 2)).take 2
      · unfold find_rule
        rw [if_pos h2, if_pos h2]
      · unfold find_rule
        rw [if_neg h2, if_neg h2]
        rfl
  have hget : ∀ j, j < 10 → scenario_state.dataset.getD j default = scenario_repertoire := by
    intro j hj
    show (List.replicate 10 scenario_repertoire).getD j default = _
    rw [List.getD_eq_getElem?_getD, List.getElem?_replicate_of_lt hj]
    rfl
  have hproc : ∀ j, j < 10 →
      ∃ o, process_repertoire O scenario_state
        [(O.selectAt 0 (List.range 10)).take 2,
         (O.selectAt 1 ((O.selectAt 0 (List.range 10)).drop 2)).take 2] j = .ok o ∧
      o.1.sequences.length = 4 ∧
      o.2 = signal_flags scenario_state.signals
        (if j ∈ (O.selectAt 0 (List.range 10)).take 2 then [signal_s1, signal_s2]
         else if j ∈ (O.selectAt 1 ((O.selectAt 0 (List.range 10)).drop 2)).take 2 then
           [signal_s2]
         else []) := by
    intro j hj
    by_cases h1 : j ∈ (O.selectAt 0 (List.range 10)).take 2
    · obtain ⟨rep2, k2, happ, hlen4⟩ := scenario_apply (hrep j) [signal_s1, signal_s2]
        (by intro s hs; simpa using hs) 0 scenario_repertoire scenario_inv_base
        (by rw [scenario_count_base]; simp)
      refine ⟨(rep2, signal_flags scenario_state.signals [signal_s1, signal_s2]),
        ?_, hlen4, by rw [if_pos h1]⟩
      unfold process_repertoire
      rw [hfr j, if_pos h1]
      dsimp only
      rw [hget j hj, happ]
    · by_cases h2 : j ∈ (O.selectAt 1 ((O.selectAt 0 (List.range 10)).drop 2)).take 2
      · obtain ⟨rep2, k2, happ, hlen4⟩ := scenario_apply (hrep j) [signal_s2]
          (by intro s hs; exact Or.inr (by simpa using hs)) 0 scenario_repertoire
          scenario_inv_base (by rw [scenario_count_base]; simp)
        refine ⟨(rep2, signal_flags scenario_state.signals [signal_s2]),
          ?_, hlen4, by rw [if_neg h1, if_pos h2]⟩
        unfold process_repertoire
        rw [hfr j, if_neg h1, if_pos h2]
        dsimp only
        rw [hget j hj, happ]
      · refine ⟨(scenario_repertoire, signal_flags scenario_state.signals []),
          ?_, by rfl, by rw [if_neg h1, if_neg h2]⟩
        unfold process_repertoire
        rw [hfr j, if_neg h1, if_neg h2]
        rw [hget j hj]
  obtain ⟨outs, houts⟩ := run_loop_total (List.range 10)
    (fun j hj => ((hproc j (List.mem_range.mp hj)).imp (fun o ho => ho.1)))
  have hfa := run_loop_ok_forall2 (List.range 10) outs houts
  have hrun : signal_implanter_run O scenario_state = .ok outs := by
    show run_loop O scenario_state
      (assign_repertoires O 10 0 scenario_state.simulation (List.range 10))
      (List.range 10) = .ok outs
    rw [hassign]
    exact houts
  have houtlen : outs.length = 10 := by
    have := hfa.length_eq
    simpa using this.symm
  have hfa2 : List.Forall₂ (fun j (o : Repertoire × List (String × Bool)) =>
      o.1.sequences.length = 4 ∧
      o.2 = signal_flags scenario_state.signals
        (if j ∈ (O.selectAt 0 (List.range 10)).take 2 then [signal_s1, signal_s2]
         else if j ∈ (O.selectAt 1 ((O.selectAt 0 (List.range 10)).drop 2)).take 2 then
           [signal_s2]
         else [])) (List.range 10) outs := by
    rw [List.forall₂_iff_get] at hfa ⊢
    obtain ⟨hlen, hget2⟩ := hfa
    refine ⟨hlen, ?_⟩
    intro i h1 h2
    have hi10 : i < 10 := by simpa using h1
    have hp := hget2 i h1 h2
    rw [List.get_range] at hp
    obtain ⟨o, ho, hol, hof⟩ := hproc i hi10
    rw [ho] at hp
    have hoo : o = outs.get ⟨i, h2⟩ := Except.ok.inj hp
    rw [List.get_range, ← hoo]
    exact ⟨hol, hof⟩
  refine ⟨outs, hrun, houtlen, ?_, ?_, ?_, ?_, ?_⟩
  · rw [forall2_countP hfa2 (q := fun j =>
      decide (j ∈ (O.selectAt 0 (List.range 10)).take 2)) ?_]
    · rw [countP_mem_range hL1nd hL1sub, hL1len]
    · intro j o hS
      dsimp only
      rw [hS.2]
      by_cases h1 : j ∈ (O.selectAt 0 (List.range 10)).take 2
      · rw [if_pos h1, decide_eq_true h1]
        decide
      · rw [if_neg h1, decide_eq_false h1]
        by_cases h2 : j ∈ (O.selectAt 1 ((O.selectAt 0 (List.range 10)).drop 2)).take 2
        · rw [if_pos h2]
          decide
        · rw [if_neg h2]
          decide
  · rw [forall2_countP hfa2 (q := fun j =>
      decide (j ∈ (O.selectAt 0 (List.range 10)).take 2 ++
        (O.selectAt 1 ((O.selectAt 0 (List.range 10)).drop 2)).take 2)) ?_]
    · rw [countP_mem_range (List.Nodup.append hL1nd hL2nd hdisj) ?_]
      · rw [List.length_append, hL1len, hL2len]
      · intro x hx
        rcases List.mem_append.mp hx with hx | hx
        · exact hL1sub x hx
        · exact hL2sub x hx
    · intro j o hS
      dsimp only
      rw [hS.2]
      by_cases h1 : j ∈ (O.selectAt 0 (List.range 10)).take 2
      · rw [if_pos h1, decide_eq_true (List.mem_append.mpr (Or.inl h1))]
        decide
      · rw [if_neg h1]
        by_cases h2 : j ∈ (O.selectAt 1 ((O.selectAt 0 (List.range 10)).drop 2)).take 2
        · rw [if_pos h2, decide_eq_true (List.mem_append.mpr (Or.inr h2))]
          decide
        · rw [if_neg h2,
            decide_eq_false (fun hmem => (List.mem_append.mp hmem).elim h1 h2)]
          decide
  · rw [forall2_countP hfa2 (q := fun j =>
      !(decide (j ∈ (O.selectAt 0 (List.range 10)).take 2))) ?_]
    · have hsum := List.length_eq_countP_add_countP
        (p := fun j => decide (j ∈ (O.selectAt 0 (List.range 10)).take 2))
        (List.range 10)
      have hcg : (List.range 10).countP
          (fun j => !(decide (j ∈ (O.selectAt 0 (List.range 10)).take 2))) =
          (List.range 10).countP
          (fun j => ¬(decide (j ∈ (O.selectAt 0 (List.range 10)).take 2) = true)) := by
        apply List.countP_congr
        intro a _
        simp
      rw [hcg]
      rw [countP_mem_range hL1nd hL1sub, hL1len] at hsum
      simp only [List.length_range] at hsum
      omega
    · intro j o hS
      dsimp only
      rw [hS.2]
      by_cases h1 : j ∈ (O.selectAt 0 (List.range 10)).take 2
      · rw [if_pos h1, decide_eq_true h1]
        decide
      · rw [if_neg h1, decide_eq_false h1]
        by_cases h2 : j ∈ (O.selectAt 1 ((O.selectAt 0 (List.range 10)).drop 2)).take 2
        · rw [if_pos h2]
          decide
        · rw [if_neg h2]
          decide
  · rw [forall2_countP hfa2 (q := fun j =>
      !(decide (j ∈ (O.selectAt 0 (List.range 10)).take 2 ++
        (O.selectAt 1 ((O.selectAt 0 (List.range 10)).drop 2)).take 2))) ?_]
    · have hsum := List.length_eq_countP_add_countP
        (p := fun j => decide (j ∈ (O.selectAt 0 (List.range 10)).take 2 ++
          (O.selectAt 1 ((O.selectAt 0 (List.range 10)).drop 2)).take 2))
        (List.range 10)
      have hcg : (List.range 10).countP
          (fun j => !(decide (j ∈ (O.selectAt 0 (List.range 10)).take 2 ++
            (O.selectAt 1 ((O.selectAt 0 (List.range 10)).drop 2)).take 2))) =
          (List.range 10).countP
          (fun j => ¬(decide (j ∈ (O.selectAt 0 (List.range 10)).take 2 ++
            (O.selectAt 1 ((O.selectAt 0 (List.range 10)).drop 2)).take 2) = true)) := by
        apply List.countP_congr
        intro a _
        simp
      rw [hcg]
      rw [countP_mem_range (List.Nodup.append hL1nd hL2nd hdisj) ?_] at hsum
      · rw [List.length_append, hL1len, hL2len] at hsum
        simp only [List.length_range] at hsum
        omega
      · intro x hx
        rcases List.mem_append.mp hx with hx | hx
        · exact hL1sub x hx
        · exact hL2sub x hx
    · intro j o hS
      dsimp only
      rw [hS.2]
      by_cases h1 : j ∈ (O.selectAt 0 (List.range 10)).take 2
      · rw [if_pos h1, decide_eq_true (List.mem_append.mpr (Or.inl h1))]
        decide
      · rw [if_neg h1]
        by_cases h2 : j ∈ (O.selectAt 1 ((O.selectAt 0 (List.range 10)).drop 2)).take 2
        · rw [if_pos h2, decide_eq_true (List.mem_append.mpr (Or.inr h2))]
          decide
        · rw [if_neg h2,
            decide_eq_false (fun hmem => (List.mem_append.mp hmem).elim h1 h2)]
          decide
  · intro entry hentry
    obtain ⟨j, hj, hS⟩ := forall2_mem_right hfa2 entry hentry
    exact hS.1

/-- Witness for C9: the scenario run under the deterministic run oracle. -/
theorem end_to_end_scenario_witness :
    ∃ outs, signal_implanter_run trivial_run_oracle scenario_state = .ok outs ∧
      outs.length = 10 ∧
      outs.countP (fun e => e.2.lookup "signal_s1" == some true) = 2 ∧
      outs.countP (fun e => e.2.lookup "signal_s2" == some true) = 4 ∧
      outs.countP (fun e => e.2.lookup "signal_s1" == some false) = 8 ∧
      outs.countP (fun e => e.2.lookup "signal_s2" == some false) = 6 ∧
      ∀ entry ∈ outs, entry.1.sequences.length = 4 :=
  end_to_end_scenario
    ⟨fun i pool => List.Perm.refl pool, fun j k xs => List.Perm.refl xs⟩
